import Mathlib

/-!
Verification development for the MapToPoster progressive preview pipeline
(`web/app.py`). The Python module is shallowly embedded: the mutable job
registry becomes explicit state, each `async` function becomes a small-step
machine whose steps are the atomic blocks between suspension points
(`await asyncio.sleep`, awaited executor futures), and the thread-pool
fetch/render collaborators become nondeterministic environment inputs
(`done` flags and optional results supplied with each step). Wall-clock
time is an explicit rational clock advanced by `tick` steps; Python
`int(...)` on the nonnegative progress values is the floor into `Nat`.
-/

namespace MapToPoster

/-- Overall job status (`jobs[job_id]["status"]` string values written by
`web/app.py`). -/
inductive JStatus
  | starting
  | running
  | complete
  | error
  | cancelled
deriving DecidableEq, Repr

/-- The string stored in the Python dict for each status value. -/
def JStatus.str : JStatus → String
  | .starting => "starting"
  | .running => "running"
  | .complete => "complete"
  | .error => "error"
  | .cancelled => "cancelled"

/-- Per-radius slot status (`job["radiuses"][r]["status"]` string values). -/
inductive SlotStatus
  | pending
  | locked
  | loading
  | ready
  | error
deriving DecidableEq, Repr

/-- One edge of an osmnx multigraph: endpoints, multi-edge key and the
`highway` tag (a scalar tag is a singleton list; a missing tag is modelled
as the empty list, read back as `unclassified` like `data.get('highway',
'unclassified')`). -/
structure Edge where
  u : Nat
  v : Nat
  key : Nat
  highway : List String
deriving DecidableEq, Repr

/-- A street-network graph: node identifiers plus multigraph edges. -/
structure Graph where
  nodes : List Nat
  edges : List Edge
deriving DecidableEq, Repr

/-- Water/park GeoDataFrames are opaque to the pipeline logic. -/
abbrev Dataset := Nat

/-- `HIGHWAY_DRIVE` from `web/app.py`. -/
def HIGHWAY_DRIVE : List String :=
  ["motorway", "motorway_link", "trunk", "trunk_link",
   "primary", "primary_link", "secondary", "secondary_link",
   "tertiary", "tertiary_link", "residential", "living_street",
   "unclassified", "road"]

/-- `HIGHWAY_PATHS` from `web/app.py`. -/
def HIGHWAY_PATHS : List String :=
  ["footway", "path", "pedestrian", "steps", "track",
   "bridleway", "corridor", "living_street"]

/-- `HIGHWAY_CYCLING` from `web/app.py`. -/
def HIGHWAY_CYCLING : List String :=
  ["cycleway", "path"]

/-- The `highway` value of an edge after the `data.get('highway',
'unclassified')` default, viewed as the set of its highway types. -/
def highwayTypes (e : Edge) : List String :=
  if e.highway = [] then ["unclassified"] else e.highway

/-- `filter_graph_by_highway_types(graph, include_types)`: keep an edge iff
any of its highway types intersects `include_types`, then drop nodes left
with degree zero. -/
def filter_graph_by_highway_types (graph : Option Graph)
    (include_types : List String) : Option Graph :=
  match graph with
  | none => none
  | some g =>
    let kept := g.edges.filter fun e =>
      (highwayTypes e).any fun h => include_types.contains h
    let keptNodes := g.nodes.filter fun n =>
      kept.any fun e => e.u = n ∨ e.v = n
    some ⟨keptNodes, kept⟩

/-- The five live feature flags of `job["features"]` /
`features_dict` (the legacy `roads`/`paths` request fields never reach
this dict). -/
structure Features where
  water : Bool
  parks : Bool
  roads_drive : Bool
  roads_paths : Bool
  roads_cycling : Bool
deriving DecidableEq, Repr

/-- `get_filtered_graph(graph_all, features)` from `web/app.py`: build the
include set from the enabled road categories; with every category enabled,
or with no category enabled, the unfiltered graph is returned. -/
def get_filtered_graph (graph_all : Option Graph) (features : Features) :
    Option Graph :=
  match graph_all with
  | none => none
  | some g =>
    let include_types :=
      (if features.roads_drive then HIGHWAY_DRIVE else []) ++
      (if features.roads_paths then HIGHWAY_PATHS else []) ++
      (if features.roads_cycling then HIGHWAY_CYCLING else [])
    if features.roads_drive ∧ features.roads_paths ∧ features.roads_cycling then
      some g
    else if include_types = [] then
      some g
    else
      filter_graph_by_highway_types (some g) include_types

/-- A partial feature update (`FeatureToggleRequest`): unset fields keep the
previous value. -/
structure FeatureDelta where
  parks : Option Bool := none
  water : Option Bool := none
  roads_drive : Option Bool := none
  roads_paths : Option Bool := none
  roads_cycling : Option Bool := none
deriving DecidableEq, Repr

/-- The field-by-field merge performed by `toggle_features`
(`if request.X is not None: features["X"] = request.X`). -/
def mergeFeatures (f : Features) (d : FeatureDelta) : Features :=
  { water := d.water.getD f.water,
    parks := d.parks.getD f.parks,
    roads_drive := d.roads_drive.getD f.roads_drive,
    roads_paths := d.roads_paths.getD f.roads_paths,
    roads_cycling := d.roads_cycling.getD f.roads_cycling }

/-- One per-radius cache slot (`job["radiuses"][r]`): lifecycle status,
cached datasets, derived crop distance, and the last-rendered preview URL.
Fields default to `none` exactly as the slot dict is created with `None`
values in `start_preview`. -/
structure RadiusData where
  status : SlotStatus
  graph_drive : Option Graph := none
  graph_all : Option Graph := none
  water : Option Dataset := none
  parks : Option Dataset := none
  preview_url : Option String := none
  compensated_dist : Option Rat := none
deriving DecidableEq, Repr

/-- `job["settings"]`: the snapshot stored at creation has no `distance`
key; the completion update and `switch_radius` write one. -/
structure Settings where
  city : String
  country : String
  theme : String
  width : Rat
  height : Rat
  distance : Option Nat := none
deriving DecidableEq, Repr

/-- A job record. Keys a preview job has and a final-generation job lacks
(`created_at`, `coords`, `base_name`, `theme_name`, `settings`,
`current_radius`) are `Option`s defaulting to `none`; `radiuses` is an
association list that is empty for final-generation jobs (no code path
distinguishes a missing `radiuses` key from an empty dict: every access
goes through `job.get("radiuses", {})` or is guarded by a slot lookup). -/
structure Job where
  status : JStatus
  step : Nat
  total : Nat
  message : String
  percent : Nat
  preview_url : Option String := none
  poster_url : Option String := none
  filename : Option String := none
  variants : List (String × String) := []
  error : Option String := none
  created_at : Option Rat := none
  coords : Option (Rat × Rat) := none
  base_name : Option String := none
  theme_name : Option String := none
  radiuses : List (Nat × RadiusData) := []
  current_radius : Option Nat := none
  features : Features := ⟨true, true, true, true, true⟩
  settings : Option Settings := none
deriving DecidableEq, Repr

/-- Dict lookup in the per-job radius dict. -/
def lookupR (rs : List (Nat × RadiusData)) (r : Nat) : Option RadiusData :=
  match rs with
  | [] => none
  | p :: t => if p.1 = r then some p.2 else lookupR t r

/-- In-place update of one radius slot (`job["radiuses"][r][...] = ...` /
`.update(...)`); a no-op when the key is absent. -/
def updR (rs : List (Nat × RadiusData)) (r : Nat) (f : RadiusData → RadiusData) :
    List (Nat × RadiusData) :=
  rs.map fun p => if p.1 = r then (p.1, f p.2) else p

/-- Dict lookup in the global `jobs` registry. -/
def lookupJob (reg : List (String × Job)) (jid : String) : Option Job :=
  match reg with
  | [] => none
  | p :: t => if p.1 = jid then some p.2 else lookupJob t jid

/-- In-place replacement of one job record in the registry. -/
def setJob (reg : List (String × Job)) (jid : String) (j : Job) :
    List (String × Job) :=
  reg.map fun p => if p.1 = jid then (p.1, j) else p

/-- `JOB_EXPIRY_SECONDS`. -/
def JOB_EXPIRY_SECONDS : Rat := 1800

/-- `INITIAL_RADIUS`. -/
def INITIAL_RADIUS : Nat := 10000

/-- The expiry test of one `cleanup_old_jobs` scan iteration:
`created_at = job_data.get("created_at", current_time)` followed by
`current_time - created_at > JOB_EXPIRY_SECONDS`. -/
def expired (j : Job) (current_time : Rat) : Bool :=
  current_time - (j.created_at.getD current_time) > JOB_EXPIRY_SECONDS

/-- One `cleanup_old_jobs` sweep over the registry at `current_time`:
expired jobs are deleted (their large cached fields are set to `None`
immediately before `del jobs[job_id]`, which is unobservable after the
deletion). -/
def cleanup_scan (reg : List (String × Job)) (current_time : Rat) :
    List (String × Job) :=
  reg.filter fun p => !(expired p.2 current_time)

/-- Python `int(...)` on the nonnegative progress expressions. -/
def pyInt (q : Rat) : Nat := (⌊q⌋).toNat

/-- Percent shown while the street fetch is awaited:
`min(40, 15 + (elapsed / 30) * 25)`. -/
def fetchProgress (elapsed : Rat) : Nat := pyInt (min 40 (15 + elapsed / 30 * 25))

/-- Percent shown while water/parks are awaited:
`min(70, 45 + (elapsed / 10) * 25)`. -/
def wpProgress (elapsed : Rat) : Nat := pyInt (min 70 (45 + elapsed / 10 * 25))

/-- Percent shown while the render is awaited:
`min(95, 75 + (elapsed / 5) * 20)`. -/
def renderProgress (elapsed : Rat) : Nat := pyInt (min 95 (75 + elapsed / 5 * 20))

/-- The request data a preview/final job is created from, together with the
strings `start_preview` / `start_final_generation` derive from it before
the job dict is stored (`base_name` from the city slug, theme and the
fresh `job_id`; `filename` likewise). The slug regexes themselves are thin
string plumbing and are carried as already-computed values. -/
structure Req where
  city : String
  country : String
  theme : String
  width : Rat
  height : Rat
  distance : Nat
  features : Features
  base_name : String
  filename : String
deriving DecidableEq, Repr

/-- `preview_width = request.width / 1.5`. -/
def previewW (req : Req) : Rat := req.width / (1.5 : Rat)

/-- `preview_height = request.height / 1.5`. -/
def previewH (req : Req) : Rat := req.height / (1.5 : Rat)

/-- `aspect_ratio` of the preview flow:
`max(preview_height, preview_width) / min(preview_height, preview_width)`. -/
def aspectPreview (req : Req) : Rat :=
  max (previewH req) (previewW req) / min (previewH req) (previewW req)

/-- `compensated_dist = radius * aspect_ratio / 4` (preview flow). -/
def compDist (req : Req) (radius : Nat) : Rat :=
  (radius : Rat) * aspectPreview req / 4

/-- `aspect_ratio` of the final flow: `max(height, width) / min(height, width)`. -/
def aspectFull (req : Req) : Rat :=
  max req.height req.width / min req.height req.width

/-- `compensated_dist = request.distance * aspect_ratio / 4` (final flow). -/
def compDistFinal (req : Req) : Rat :=
  (req.distance : Rat) * aspectFull req / 4

/-- The JSON snapshot returned by `GET /api/progress/{job_id}`; absent keys
are `none`. -/
structure ProgressSnapshot where
  status : Option String
  step : Option Nat := none
  total : Option Nat := none
  message : Option String := none
  percent : Option Nat := none
  preview_url : Option String := none
  poster_url : Option String := none
  filename : Option String := none
  error : Option String := none
  current_radius : Option Nat := none
  settings : Option Settings := none
  variants : Option (List (String × String)) := none
  coords : Option (Rat × Rat) := none
deriving DecidableEq, Repr

/-- `get_progress(job_id)`: an unknown id yields `{"status": "not_found"}`;
a known id yields the serializable projection of the job record. -/
def get_progress (reg : List (String × Job)) (job_id : String) :
    ProgressSnapshot :=
  match lookupJob reg job_id with
  | none => { status := some "not_found" }
  | some job =>
    { status := some job.status.str,
      step := some job.step,
      total := some job.total,
      message := some job.message,
      percent := some job.percent,
      preview_url := job.preview_url,
      poster_url := job.poster_url,
      filename := job.filename,
      error := job.error,
      current_radius := job.current_radius,
      settings := job.settings,
      variants := some job.variants,
      coords := job.coords }

/-- The error outcomes of `switch_radius` (HTTPException status/detail
pairs raised before any mutation). -/
inductive SwitchErr
  | notFoundJob
  | notAvailable
  | lockedErr
  | stillLoading
  | noPreview
deriving DecidableEq, Repr

/-- The body of `switch_radius` acting on one job record: every error is
raised before any mutation; on success `current_radius`, the job-level
`preview_url` and `settings["distance"]` are written. The Python
`if not preview_url` treats both a missing URL and an empty string as
falsy. -/
def switch_radius_job (job : Job) (radius : Nat) :
    Except SwitchErr (Job × String) :=
  match lookupR job.radiuses radius with
  | none => Except.error SwitchErr.notAvailable
  | some radius_data =>
    if radius_data.status = SlotStatus.locked then
      Except.error SwitchErr.lockedErr
    else if radius_data.status ≠ SlotStatus.ready then
      Except.error SwitchErr.stillLoading
    else
      match radius_data.preview_url with
      | none => Except.error SwitchErr.noPreview
      | some url =>
        if url = "" then Except.error SwitchErr.noPreview
        else
          Except.ok
            ({ job with
                current_radius := some radius,
                preview_url := some url,
                settings := job.settings.map fun s =>
                  { s with distance := some radius } },
             url)

/-- `POST /api/preview/radius/{job_id}` at registry level: unknown job ids
are rejected first; errors leave the registry untouched. -/
def switch_radius (reg : List (String × Job)) (job_id : String)
    (radius : Nat) : List (String × Job) × Except SwitchErr String :=
  match lookupJob reg job_id with
  | none => (reg, Except.error SwitchErr.notFoundJob)
  | some job =>
    match switch_radius_job job radius with
    | Except.error e => (reg, Except.error e)
    | Except.ok (job1, url) => (setJob reg job_id job1, Except.ok url)

/-- `base_name.rsplit('_', 1)[0]`: drop the final `_`-separated segment
(the whole string when it has no underscore). -/
def rsplitHead (s : String) : String :=
  let cs := s.data.reverse
  if cs.contains ('_') then
    String.mk (((cs.dropWhile (fun c => c ≠ ('_'))).drop 1).reverse)
  else s

/-- Stand-in for `hashlib.md5(str(features)).hexdigest()[:6]` in
`toggle_features`: a six-character tag determined by the feature dict (the
only property the pipeline relies on is that it is a function of the
flags). -/
def featureHash (f : Features) : String :=
  (if f.water then "w" else "o") ++ (if f.parks then "p" else "o") ++
  (if f.roads_drive then "d" else "o") ++ (if f.roads_paths then "t" else "o") ++
  (if f.roads_cycling then "c" else "o") ++ "x"

/-- The body of `switch_theme` acting on one job record. `themeOk` models
`request.theme in get_available_themes()`; `renderOk` models whether the
awaited `render_full_poster` call succeeds. All checks precede all
mutations, and a render failure propagates as a 500 before the job is
touched, so every non-success path returns the record unchanged. (For the
unreachable case of a ready slot on a record without a `settings` key the
model skips the settings write instead of raising mid-update.) -/
def switch_theme_job (job : Job) (theme : String)
    (themeOk renderOk : Bool) : Job :=
  let current_radius := job.current_radius.getD INITIAL_RADIUS
  match lookupR job.radiuses current_radius with
  | none => job
  | some radius_data =>
    if radius_data.status ≠ SlotStatus.ready ∨ radius_data.graph_all = none then
      job
    else if !themeOk then job
    else
      let base_name := rsplitHead (job.base_name.getD "")
      let new_file :=
        base_name ++ "_" ++ theme ++ "_" ++
        toString (current_radius / 1000) ++ "km.png"
      if !renderOk then job
      else
        { job with
            theme_name := some theme,
            settings := job.settings.map fun s => { s with theme := theme },
            preview_url := some ("/previews/" ++ new_file),
            radiuses := updR job.radiuses current_radius fun rd =>
              { rd with preview_url := some ("/previews/" ++ new_file) } }

/-- The body of `toggle_features` acting on one job record. The merged
feature set is written back to the job before the render is awaited, so a
render failure (`renderOk = false`, surfacing as a 500) leaves the flags
updated but the preview URLs untouched; the cached slot datasets are only
read (`get_filtered_graph` copies), never written. -/
def toggle_features_job (job : Job) (d : FeatureDelta) (renderOk : Bool) :
    Job :=
  let current_radius := job.current_radius.getD INITIAL_RADIUS
  match lookupR job.radiuses current_radius with
  | none => job
  | some radius_data =>
    if radius_data.status ≠ SlotStatus.ready ∨ radius_data.graph_all = none then
      job
    else
      let features := mergeFeatures job.features d
      let job1 := { job with features := features }
      let new_file :=
        job.base_name.getD "" ++ "_" ++ toString (current_radius / 1000) ++
        "km_" ++ featureHash features ++ ".png"
      let _filtered := get_filtered_graph radius_data.graph_all features
      if !renderOk then job1
      else
        { job1 with
            preview_url := some ("/previews/" ++ new_file),
            radiuses := updR job1.radiuses current_radius fun rd =>
              { rd with preview_url := some ("/previews/" ++ new_file) } }

/-- Suspension points of `run_progressive_generation`. `created` is the
coroutine scheduled by `asyncio.create_task` but not yet run; each
`*Poll` is the head of one of the three polling loops (the loop condition
is about to be evaluated); payloads are the local variables live across
the suspension (resolved coordinates, fetched graph, the `*_start`
wall-clock stamps). -/
inductive EPc
  | created
  | fetchPoll (coords : Rat × Rat) (street_start : Rat)
  | wpPoll (coords : Rat × Rat) (g_all : Graph) (features_start : Rat)
  | renderPoll (coords : Rat × Rat) (render_start : Rat)
  | finished
deriving DecidableEq, Repr

/-- Suspension points of `fetch_other_radiuses_background` (the widen
task). `notSpawned` means the task has not been created yet; `spawned`
carries the coordinates passed by the executor; the `w*` states await the
four pool calls of the single unlocked extra radius (5000 m); `wFinished
viaException` records whether the task ended through its top-level
`except` handler (a registry access raised `KeyError` after the job was
evicted, or the render failed) rather than by running to the end. -/
inductive WPc
  | notSpawned
  | spawned (coords : Rat × Rat)
  | wFetch (coords : Rat × Rat) (base_name : String)
  | wWater (coords : Rat × Rat) (base_name : String) (g_all : Graph)
  | wParks (coords : Rat × Rat) (base_name : String) (g_all : Graph)
      (water : Option Dataset)
  | wRender (base_name : String)
  | wFinished (viaException : Bool)
deriving DecidableEq, Repr

/-- One interleaving step of the preview system: an executor or widen-task
block resuming with the environment's answer (task `done` flags, fetch
results, render success), an HTTP endpoint invocation, one sweeper
iteration, or wall-clock advance. -/
inductive PInput
  | execStart (loc : Option (Rat × Rat))
  | execFetch (dn : Bool) (res : Option Graph)
  | execWP (dn : Bool) (water parks : Option Dataset)
  | execRender (dn : Bool) (ok : Bool)
  | widenStart
  | widenFetch (res : Option Graph)
  | widenWater (water : Option Dataset)
  | widenParks (parks : Option Dataset)
  | widenRender (ok : Bool)
  | cancel
  | sweep
  | callSwitchRadius (radius : Nat)
  | callSwitchTheme (theme : String) (themeOk renderOk : Bool)
  | callToggle (d : FeatureDelta) (renderOk : Bool)
  | tick (d : Rat)
deriving DecidableEq, Repr

/-- The whole observable state for one preview job: its registry entry
(`none` once deleted), its membership in `cancelled_jobs`, the wall
clock, the two coroutine positions, and instrumentation counting the
`fetch_graph_fast` submissions made for each free radius slot. -/
structure PState where
  job : Option Job
  cancelled : Bool
  now : Rat
  epc : EPc
  wpc : WPc
  fetchCount5 : Nat
  fetchCount10 : Nat
deriving DecidableEq, Repr

/-- The job dict stored by `start_preview` before the generation task is
scheduled. -/
def initJob (req : Req) (t : Rat) : Job :=
  { status := JStatus.starting,
    step := 0,
    total := 4,
    message := "Finding your location...",
    percent := 0,
    preview_url := none,
    variants := [],
    error := none,
    created_at := some t,
    coords := none,
    base_name := some req.base_name,
    theme_name := some req.theme,
    radiuses :=
      [(5000, { status := SlotStatus.pending }),
       (10000, { status := SlotStatus.pending }),
       (15000, { status := SlotStatus.locked }),
       (20000, { status := SlotStatus.locked })],
    current_radius := some INITIAL_RADIUS,
    features := ⟨true, true, true, true, true⟩,
    settings := some
      { city := req.city, country := req.country, theme := req.theme,
        width := req.width, height := req.height, distance := none } }

/-- The state right after `POST /api/preview/start` returns. -/
def pinit (req : Req) : PState :=
  { job := some (initJob req 0), cancelled := false, now := 0,
    epc := EPc.created, wpc := WPc.notSpawned,
    fetchCount5 := 0, fetchCount10 := 0 }

/-- The preview-job URL rendered for a radius:
`f"/previews/{base_name}_{radius//1000}km.png"`. -/
def previewUrl (base_name : String) (radius : Nat) : String :=
  "/previews/" ++ base_name ++ "_" ++ toString (radius / 1000) ++ "km.png"

/-- Small-step semantics of the preview system. Every registry mutation of
the two coroutines is a `jobs[job_id]...` access: when the record has been
deleted the access raises `KeyError`, the surrounding `except` block's own
`jobs[job_id].update(...)` (executor) raises again, and the task dies
without mutating anything — modelled by jumping to the terminal pc with
the state unchanged. Inputs that do not match the current coroutine
position leave the state unchanged. -/
def pstep (req : Req) (i : PInput) (s : PState) : PState :=
  match i with
  | PInput.tick d => if 0 ≤ d then { s with now := s.now + d } else s
  | PInput.cancel =>
    -- cancel_job: add to cancelled_jobs, overwrite status and message.
    match s.job with
    | none => s
    | some j =>
      { s with cancelled := true,
               job := some { j with status := JStatus.cancelled,
                                    message := "Cancelled" } }
  | PInput.sweep =>
    -- one cleanup_old_jobs iteration applied to this job's entry.
    match s.job with
    | none => s
    | some j =>
      if expired j s.now then { s with job := none, cancelled := false } else s
  | PInput.callSwitchRadius radius =>
    match s.job with
    | none => s
    | some j =>
      match switch_radius_job j radius with
      | Except.error _ => s
      | Except.ok (j1, _) => { s with job := some j1 }
  | PInput.callSwitchTheme theme themeOk renderOk =>
    match s.job with
    | none => s
    | some j => { s with job := some (switch_theme_job j theme themeOk renderOk) }
  | PInput.callToggle d renderOk =>
    match s.job with
    | none => s
    | some j => { s with job := some (toggle_features_job j d renderOk) }
  | PInput.execStart loc =>
    match s.epc with
    | EPc.created =>
      match s.job with
      | none => { s with epc := EPc.finished }
      | some j =>
        match loc with
        | none =>
          -- update(running/step 1/percent 5) then get_coordinates raises
          -- ValueError: update(status error, error message).
          { s with
              job := some { j with status := JStatus.error, step := 1,
                                   message := "Finding your location...",
                                   percent := 5,
                                   error := some "Could not find location" },
              epc := EPc.finished }
        | some c =>
          -- locate succeeded: store coords, claim the 10 km slot, announce
          -- the street fetch and submit it to the pool.
          { s with
              job := some { j with status := JStatus.running, step := 2,
                                   message := "Downloading street data...",
                                   percent := 15,
                                   coords := some c,
                                   radiuses := updR j.radiuses INITIAL_RADIUS
                                     fun rd => { rd with status := SlotStatus.loading } },
              epc := EPc.fetchPoll c s.now,
              fetchCount10 := s.fetchCount10 + 1 }
    | _ => s
  | PInput.execFetch dn res =>
    match s.epc with
    | EPc.fetchPoll c t0 =>
      if dn then
        match s.job with
        | none => { s with epc := EPc.finished }
        | some j =>
          match res with
          | none =>
            { s with job := some { j with status := JStatus.error,
                                          error := some "Failed to load street data" },
                     epc := EPc.finished }
          | some g =>
            { s with job := some { j with step := 3,
                                          message := "Adding water & parks...",
                                          percent := 45 },
                     epc := EPc.wpPoll c g s.now }
      else if s.cancelled then { s with epc := EPc.finished }
      else
        match s.job with
        | none => { s with epc := EPc.finished }
        | some j =>
          -- sleep(0.5) elapsed; the update writes the simulated percent and
          -- the "Loading streets... (Ns)" message (elapsed suffix elided).
          { s with job := some { j with percent := fetchProgress (s.now - t0),
                                        message := "Loading streets..." } }
    | _ => s
  | PInput.execWP dn water parks =>
    match s.epc with
    | EPc.wpPoll c g t0 =>
      if dn then
        match s.job with
        | none => { s with epc := EPc.finished }
        | some j =>
          -- store the 10 km data into the slot, then announce the render.
          { s with
              job := some { j with
                radiuses := updR j.radiuses INITIAL_RADIUS fun rd =>
                  { rd with graph_all := some g, water := water, parks := parks,
                            compensated_dist := some (compDist req INITIAL_RADIUS) },
                step := 4, message := "Composing your map...", percent := 75 },
              epc := EPc.renderPoll c s.now }
      else if s.cancelled then { s with epc := EPc.finished }
      else
        match s.job with
        | none => { s with epc := EPc.finished }
        | some j => { s with job := some { j with percent := wpProgress (s.now - t0) } }
    | _ => s
  | PInput.execRender dn ok =>
    match s.epc with
    | EPc.renderPoll c t0 =>
      if dn then
        if ok then
          match s.job with
          | none => { s with epc := EPc.finished }
          | some j =>
            -- mark the 10 km slot ready, publish the completion snapshot and
            -- spawn the widen task; no cancellation check on this path.
            let url := previewUrl req.base_name INITIAL_RADIUS
            { s with
                job := some { j with
                  radiuses := updR j.radiuses INITIAL_RADIUS fun rd =>
                    { rd with status := SlotStatus.ready, preview_url := some url },
                  status := JStatus.complete, step := 4, total := 4,
                  message := "Done!", percent := 100,
                  preview_url := some url,
                  current_radius := some INITIAL_RADIUS,
                  variants := [],
                  settings := some
                    { city := req.city, country := req.country, theme := req.theme,
                      width := req.width, height := req.height,
                      distance := some INITIAL_RADIUS } },
                epc := EPc.finished,
                wpc := WPc.spawned c }
        else
          match s.job with
          | none => { s with epc := EPc.finished }
          | some j =>
            -- render raised: the outer except writes status/error.
            { s with job := some { j with status := JStatus.error,
                                          error := some "Render failed" },
                     epc := EPc.finished }
      else if s.cancelled then { s with epc := EPc.finished }
      else
        match s.job with
        | none => { s with epc := EPc.finished }
        | some j => { s with job := some { j with percent := renderProgress (s.now - t0) } }
    | _ => s
  | PInput.widenStart =>
    match s.wpc with
    | WPc.spawned c =>
      match s.job with
      | none => { s with wpc := WPc.wFinished true }
      | some j =>
        -- base_name is read from the registry, then the loop-top guard
        -- checks registry membership and the cancellation flag before the
        -- 5 km slot is claimed and its fetch submitted.
        if s.cancelled then { s with wpc := WPc.wFinished false }
        else
          let j1 := { j with radiuses := updR j.radiuses 5000 fun rd =>
                        { rd with status := SlotStatus.loading } }
          { s with
              job := some j1,
              wpc := WPc.wFetch c (j.base_name.getD ""),
              fetchCount5 := s.fetchCount5 + 1 }
    | _ => s
  | PInput.widenFetch res =>
    match s.wpc with
    | WPc.wFetch c bn =>
      match res with
      | none =>
        -- failure branch touches the registry with no membership guard: on
        -- an evicted job the lookup raises KeyError, caught at task level.
        match s.job with
        | none => { s with wpc := WPc.wFinished true }
        | some j =>
          let j1 := { j with radiuses := updR j.radiuses 5000 fun rd =>
                        { rd with status := SlotStatus.error } }
          { s with job := some j1, wpc := WPc.wFinished false }
      | some g => { s with wpc := WPc.wWater c bn g }
    | _ => s
  | PInput.widenWater water =>
    match s.wpc with
    | WPc.wWater c bn g => { s with wpc := WPc.wParks c bn g water }
    | _ => s
  | PInput.widenParks parks =>
    match s.wpc with
    | WPc.wParks _ bn g water =>
      -- the slot-store update is likewise unguarded.
      match s.job with
      | none => { s with wpc := WPc.wFinished true }
      | some j =>
        let j1 := { j with radiuses := updR j.radiuses 5000 fun rd =>
                      { rd with graph_all := some g, water := water, parks := parks,
                                compensated_dist := some (compDist req 5000) } }
        { s with job := some j1, wpc := WPc.wRender bn }
    | _ => s
  | PInput.widenRender ok =>
    match s.wpc with
    | WPc.wRender bn =>
      if ok then
        match s.job with
        | none => { s with wpc := WPc.wFinished true }
        | some j =>
          let j1 := { j with radiuses := updR j.radiuses 5000 fun rd =>
                        { rd with status := SlotStatus.ready,
                                  preview_url := some (previewUrl bn 5000) } }
          { s with job := some j1, wpc := WPc.wFinished false }
      else { s with wpc := WPc.wFinished true }
    | _ => s

/-- Run the preview system from a given state. -/
def prunFrom (req : Req) (s : PState) (l : List PInput) : PState :=
  l.foldl (fun s i => pstep req i s) s

/-- Run the preview system from creation. -/
def prun (req : Req) (l : List PInput) : PState :=
  prunFrom req (pinit req) l

/-- Suspension points of `run_generation` (final high-resolution flow).
It awaits each pool call directly, with no polling loop and no
cancellation check; the two optional water/parks awaits are folded into
one resume point since no registry write separates them. -/
inductive FPc
  | created
  | fFetch
  | fFeat
  | fRender
  | finished
deriving DecidableEq, Repr

/-- Interleaving steps of the final-generation system. -/
inductive FInput
  | fStart (loc : Option (Rat × Rat))
  | fFetchDone (res : Option Graph)
  | fFeatDone (water parks : Option Dataset)
  | fRenderDone (ok : Bool)
  | cancel
  | sweep
  | tick (d : Rat)
deriving DecidableEq, Repr

/-- State of one final-generation job. -/
structure FState where
  job : Option Job
  cancelled : Bool
  now : Rat
  fpc : FPc
deriving DecidableEq, Repr

/-- The job dict stored by `start_final_generation`: note the absence of
`created_at`, `coords`, `settings`, `current_radius` and of any radius
slots. -/
def finitJob (req : Req) : Job :=
  { status := JStatus.starting,
    step := 0,
    total := 4,
    message := "Starting...",
    percent := 0,
    poster_url := none,
    filename := some req.filename,
    error := none }

/-- The state right after `POST /api/generate/start` returns. -/
def finit (req : Req) : FState :=
  { job := some (finitJob req), cancelled := false, now := 0, fpc := FPc.created }

/-- Small-step semantics of `run_generation`, plus the cancel endpoint and
the sweeper (which also scan final-generation jobs). -/
def fstep (req : Req) (i : FInput) (s : FState) : FState :=
  match i with
  | FInput.tick d => if 0 ≤ d then { s with now := s.now + d } else s
  | FInput.cancel =>
    match s.job with
    | none => s
    | some j =>
      { s with cancelled := true,
               job := some { j with status := JStatus.cancelled,
                                    message := "Cancelled" } }
  | FInput.sweep =>
    match s.job with
    | none => s
    | some j =>
      if expired j s.now then { s with job := none, cancelled := false } else s
  | FInput.fStart loc =>
    match s.fpc with
    | FPc.created =>
      match s.job with
      | none => { s with fpc := FPc.finished }
      | some j =>
        match loc with
        | none =>
          { s with
              job := some { j with status := JStatus.error, step := 1,
                                   message := "Finding location...", percent := 5,
                                   error := some "Could not find location" },
              fpc := FPc.finished }
        | some _ =>
          { s with
              job := some { j with status := JStatus.running, step := 2,
                                   message := "Loading streets...", percent := 15 },
              fpc := FPc.fFetch }
    | _ => s
  | FInput.fFetchDone res =>
    match s.fpc with
    | FPc.fFetch =>
      match s.job with
      | none => { s with fpc := FPc.finished }
      | some j =>
        match res with
        | none =>
          { s with job := some { j with status := JStatus.error,
                                        error := some "Failed to load street data" },
                   fpc := FPc.finished }
        | some g =>
          -- the fetched graph is filtered by the requested road toggles and
          -- handed to the renderer; only the progress update is observable.
          let _g := get_filtered_graph (some g) req.features
          { s with job := some { j with step := 3, message := "Adding features...",
                                        percent := 45 },
                   fpc := FPc.fFeat }
    | _ => s
  | FInput.fFeatDone _ _ =>
    match s.fpc with
    | FPc.fFeat =>
      match s.job with
      | none => { s with fpc := FPc.finished }
      | some j =>
        { s with job := some { j with step := 4, message := "Rendering...",
                                      percent := 75 },
                 fpc := FPc.fRender }
    | _ => s
  | FInput.fRenderDone ok =>
    match s.fpc with
    | FPc.fRender =>
      match s.job with
      | none => { s with fpc := FPc.finished }
      | some j =>
        if ok then
          { s with
              job := some { j with status := JStatus.complete, step := 4, total := 4,
                                   message := "Done!", percent := 100,
                                   poster_url := some ("/posters/" ++ req.filename),
                                   filename := some req.filename },
              fpc := FPc.finished }
        else
          { s with job := some { j with status := JStatus.error,
                                        error := some "Render failed" },
                   fpc := FPc.finished }
    | _ => s

/-- Run the final-generation system from creation. -/
def frun (req : Req) (l : List FInput) : FState :=
  l.foldl (fun s i => fstep req i s) (finit req)

/-- Dict assignment `variants[k] = v` on the job's variants dict. -/
def setVariant (l : List (String × String)) (k v : String) :
    List (String × String) :=
  if (l.lookup k).isSome then l.map (fun p => if p.1 = k then (p.1, v) else p)
  else l ++ [(k, v)]

/-- Suspension points of `render_variants_background`: the three variant
renders and the full-network fetch it awaits. `vFinished viaException`
records an end through the task's `except` handler (a failed render); all
of its registry writes are guarded by an explicit `if job_id in jobs`
check, so eviction never raises here. -/
inductive VPc
  | vRender1 (base_name : String)
  | vFetchAll (base_name : String)
  | vRender2 (base_name : String)
  | vRender3 (base_name : String)
  | vFinished (viaException : Bool)
deriving DecidableEq, Repr

/-- Interleaving steps of the variants task against its parent job. -/
inductive VInput
  | r1Done (ok : Bool)
  | fetchAllDone (res : Option Graph)
  | r2Done (ok : Bool)
  | r3Done (ok : Bool)
  | evict
deriving DecidableEq, Repr

/-- State of the variants task plus its parent job's registry entry. -/
structure VState where
  job : Option Job
  vpc : VPc
deriving DecidableEq, Repr

/-- Small-step semantics of `render_variants_background`: each mutation is
preceded by an `if job_id in jobs` membership check in the same atomic
block, so an evicted parent job is skipped, never touched and never a
source of `KeyError`. -/
def vstep (i : VInput) (s : VState) : VState :=
  match i with
  | VInput.evict => { s with job := none }
  | VInput.r1Done ok =>
    match s.vpc with
    | VPc.vRender1 bn =>
      if !ok then { s with vpc := VPc.vFinished true }
      else
        match s.job with
        | none => { s with vpc := VPc.vFetchAll bn }
        | some j =>
          let u := "/previews/" ++ bn ++ "_no_wp.png"
          let j1 := { j with variants := setVariant j.variants "drive_no_wp" u }
          { s with job := some j1, vpc := VPc.vFetchAll bn }
    | _ => s
  | VInput.fetchAllDone res =>
    match s.vpc with
    | VPc.vFetchAll bn =>
      match res with
      | none => { s with vpc := VPc.vFinished false }
      | some _ => { s with vpc := VPc.vRender2 bn }
    | _ => s
  | VInput.r2Done ok =>
    match s.vpc with
    | VPc.vRender2 bn =>
      if !ok then { s with vpc := VPc.vFinished true }
      else
        match s.job with
        | none => { s with vpc := VPc.vRender3 bn }
        | some j =>
          let u := "/previews/" ++ bn ++ "_all_wp.png"
          let j1 := { j with variants := setVariant j.variants "all_with_wp" u }
          { s with job := some j1, vpc := VPc.vRender3 bn }
    | _ => s
  | VInput.r3Done ok =>
    match s.vpc with
    | VPc.vRender3 bn =>
      if !ok then { s with vpc := VPc.vFinished true }
      else
        match s.job with
        | none => { s with vpc := VPc.vFinished false }
        | some j =>
          let u := "/previews/" ++ bn ++ "_all_no_wp.png"
          let j1 := { j with variants := setVariant j.variants "all_no_wp" u }
          { s with job := some j1, vpc := VPc.vFinished false }
    | _ => s

/-- Number of radius slots in `ready` state. -/
def readyCount (j : Job) : Nat :=
  (j.radiuses.filter fun p => p.2.status == SlotStatus.ready).length

/-- No radius slot of the job is `ready`. -/
def noReadySlot (j : Job) : Prop :=
  ∀ p ∈ j.radiuses, (p : Nat × RadiusData).2.status ≠ SlotStatus.ready

/-- A slot is well-formed: if `ready` it carries a non-empty preview URL. -/
def slotGood (rd : RadiusData) : Prop :=
  rd.status = SlotStatus.ready → ∃ u, rd.preview_url = some u ∧ u ≠ ""

/-- Every `ready` slot carries a non-empty preview URL. -/
def readyUrlsOk (j : Job) : Prop :=
  ∀ p ∈ j.radiuses, slotGood (p : Nat × RadiusData).2

/-- The two free-tier slots exist in the job's radius dict. -/
def slotKeysOk (j : Job) : Prop :=
  (lookupR j.radiuses INITIAL_RADIUS).isSome ∧ (lookupR j.radiuses 5000).isSome

/-- A `complete` job has its initial-radius slot `ready`. -/
def completeHasReady (j : Job) : Prop :=
  j.status = JStatus.complete →
    ∃ rd, lookupR j.radiuses INITIAL_RADIUS = some rd ∧
      rd.status = SlotStatus.ready

/-- Job-record part of the preview-system invariant. -/
def JobInv (j : Job) : Prop :=
  slotKeysOk j ∧ readyUrlsOk j ∧ completeHasReady j

/-- Preview-system invariant. -/
def PInv (s : PState) : Prop := ∀ j, s.job = some j → JobInv j

/-- The cached portion of a slot: everything `toggle_features` and
`switch_theme` must reuse rather than refetch or recompute. -/
def cacheView (rd : RadiusData) :
    SlotStatus × Option Graph × Option Dataset × Option Dataset × Option Rat :=
  (rd.status, rd.graph_all, rd.water, rd.parks, rd.compensated_dist)

/-- Inputs representing a feature-toggle or theme-switch re-render call. -/
def rerenderInput : PInput → Prop
  | PInput.callSwitchTheme _ _ _ => True
  | PInput.callToggle _ _ => True
  | _ => False

/-- Percent bookkeeping invariant of the preview executor: at each polling
loop the stored percent never exceeds the value the loop's schedule
assigns to the current instant, so the next update can only move it up. -/
def percentInv (s : PState) : Prop :=
  match s.epc with
  | EPc.created => ∀ j, s.job = some j → j.percent = 0
  | EPc.fetchPoll _ t0 =>
    t0 ≤ s.now ∧ ∀ j, s.job = some j → j.percent ≤ fetchProgress (s.now - t0)
  | EPc.wpPoll _ _ t0 =>
    t0 ≤ s.now ∧ ∀ j, s.job = some j → j.percent ≤ wpProgress (s.now - t0)
  | EPc.renderPoll _ t0 =>
    t0 ≤ s.now ∧ ∀ j, s.job = some j → j.percent ≤ renderProgress (s.now - t0)
  | EPc.finished => True

/-- Percent bookkeeping invariant of the final-generation executor. -/
def fPercentInv (s : FState) : Prop :=
  match s.fpc with
  | FPc.created => ∀ j, s.job = some j → j.percent = 0
  | FPc.fFetch => ∀ j, s.job = some j → j.percent = 15
  | FPc.fFeat => ∀ j, s.job = some j → j.percent = 45
  | FPc.fRender => ∀ j, s.job = some j → j.percent = 75
  | FPc.finished => True

/-- A preview-system state in which the executor has already returned at a
cancellation check, the widen task was never spawned, and the job (while
it exists) is cancelled with no ready slot. -/
def cancelFrozen (s : PState) : Prop :=
  s.epc = EPc.finished ∧ s.wpc = WPc.notSpawned ∧
  ∀ j, s.job = some j → j.status = JStatus.cancelled ∧ noReadySlot j

/-- A concrete request used to evaluate the machines on closed inputs. -/
def req0 : Req :=
  { city := "Prague", country := "Czech Republic", theme := "noir",
    width := 12, height := 12, distance := 3000,
    features := ⟨true, true, true, true, true⟩,
    base_name := "preview_prague_noir_ab12cd34",
    filename := "prague_noir_ab12cd34.png" }

/-- Concrete coordinates for closed evaluations. -/
def c0 : Rat × Rat := (50, 14)

/-- A concrete one-edge street graph. -/
def g0 : Graph := ⟨[1, 2], [⟨1, 2, 0, ["residential"]⟩]⟩

/-- Closed input trace driving the preview executor down its happy path. -/
def happyInputs : List PInput :=
  [PInput.execStart (some c0), PInput.execFetch true (some g0),
   PInput.execWP true none none, PInput.execRender true true]

/-- The preview state after the happy path: job complete, 10 km ready. -/
def completedState : PState := prun req0 happyInputs

/-- The completed preview job record extracted from `completedState`. -/
def jobC : Job := completedState.job.getD (initJob req0 0)

/-- The preview state after the widen task has claimed the 5 km slot and
submitted its street fetch. -/
def widenState : PState := pstep req0 PInput.widenStart completedState

/-- The job record of `widenState`. -/
def jobW : Job := widenState.job.getD (initJob req0 0)

/-- A one-job registry holding the completed preview job. -/
def reg1 : List (String × Job) := [("jobone", jobC)]

theorem lookupR_updR (rs : List (Nat × RadiusData)) (r q : Nat)
    (f : RadiusData → RadiusData) :
    lookupR (updR rs r f) q =
      if q = r then (lookupR rs r).map f else lookupR rs q := by
  rcases eq_or_ne q r with hq | hq
  · subst hq
    simp only [if_pos rfl]
    induction rs with
    | nil => simp [lookupR, updR]
    | cons p t ih =>
      obtain ⟨a, d⟩ := p
      by_cases ha : a = q
      · subst ha
        simp [lookupR, updR]
      · simp [lookupR, updR, ha] at ih ⊢
        exact ih
  · simp only [if_neg hq]
    induction rs with
    | nil => simp [lookupR, updR]
    | cons p t ih =>
      obtain ⟨a, d⟩ := p
      by_cases har : a = r
      · subst har
        have haq : a ≠ q := fun hc => hq (by rw [← hc])
        simp [lookupR, updR, haq] at ih ⊢
        exact ih
      · by_cases haq : a = q
        · subst haq
          simp [lookupR, updR, har]
        · simp [lookupR, updR, har, haq] at ih ⊢
          exact ih

theorem mem_of_lookupR (rs : List (Nat × RadiusData)) (r : Nat)
    (rd : RadiusData) (h : lookupR rs r = some rd) : (r, rd) ∈ rs := by
  induction rs with
  | nil => simp [lookupR] at h
  | cons p t ih =>
    by_cases hpr : p.1 = r
    · simp only [lookupR, if_pos hpr] at h
      have hp : p = (r, rd) := by
        cases p
        simp only at hpr
        cases h
        simp [hpr]
      exact hp ▸ List.mem_cons_self _ _
    · simp only [lookupR, if_neg hpr] at h
      exact List.mem_cons_of_mem _ (ih h)

theorem pyInt_mono {q q' : Rat} (h : q ≤ q') : pyInt q ≤ pyInt q' :=
  Int.toNat_le_toNat (Int.floor_le_floor h)

theorem pyInt_le {q : Rat} {n : Nat} (h : q ≤ (n : Rat)) : pyInt q ≤ n := by
  have h1 : (⌊q⌋ : Int) ≤ (n : Int) := by
    have := Int.floor_le_floor h
    simpa using this
  unfold pyInt
  omega

theorem pyInt_ge {q : Rat} {n : Nat} (h : (n : Rat) ≤ q) : n ≤ pyInt q := by
  have h1 : (n : Int) ≤ ⌊q⌋ := by
    have := Int.floor_le_floor h
    simpa using this
  unfold pyInt
  omega

theorem fetchProgress_le (e : Rat) : fetchProgress e ≤ 40 :=
  pyInt_le (by exact_mod_cast min_le_left (40 : Rat) _)

theorem fetchProgress_ge {e : Rat} (h : 0 ≤ e) : 15 ≤ fetchProgress e := by
  refine pyInt_ge (le_min (by norm_num) ?_)
  have : 0 ≤ e / 30 * 25 := by positivity
  push_cast
  linarith

theorem fetchProgress_mono {e e' : Rat} (h : e ≤ e') :
    fetchProgress e ≤ fetchProgress e' := by
  refine pyInt_mono ?_
  gcongr

theorem wpProgress_le (e : Rat) : wpProgress e ≤ 70 :=
  pyInt_le (by exact_mod_cast min_le_left (70 : Rat) _)

theorem wpProgress_ge {e : Rat} (h : 0 ≤ e) : 45 ≤ wpProgress e := by
  refine pyInt_ge (le_min (by norm_num) ?_)
  have : 0 ≤ e / 10 * 25 := by positivity
  push_cast
  linarith

theorem wpProgress_mono {e e' : Rat} (h : e ≤ e') :
    wpProgress e ≤ wpProgress e' := by
  refine pyInt_mono ?_
  gcongr

theorem renderProgress_le (e : Rat) : renderProgress e ≤ 95 :=
  pyInt_le (by exact_mod_cast min_le_left (95 : Rat) _)

theorem renderProgress_ge {e : Rat} (h : 0 ≤ e) : 75 ≤ renderProgress e := by
  refine pyInt_ge (le_min (by norm_num) ?_)
  have : 0 ≤ e / 5 * 20 := by positivity
  push_cast
  linarith

theorem renderProgress_mono {e e' : Rat} (h : e ≤ e') :
    renderProgress e ≤ renderProgress e' := by
  refine pyInt_mono ?_
  gcongr

theorem append_ne_empty (a b : String) (h : a ≠ "") : a ++ b ≠ "" := by
  intro he
  apply h
  cases a with
  | mk la =>
    cases b with
    | mk lb =>
      have hd : la ++ lb = [] := congrArg String.data he
      have hla : la = [] := (List.append_eq_nil.mp hd).1
      simp [hla]

/-- Claim C5: for every cached primary dataset and every feature-flag set
with all three road-category flags disabled, the derived filtered view is
the full unfiltered cached dataset itself, so a non-empty cached dataset
never produces a zero-edge render input. -/
theorem no_road_flags_falls_back_to_full_graph (g : Graph) (f : Features)
    (hd : f.roads_drive = false) (hp : f.roads_paths = false)
    (hc : f.roads_cycling = false) :
    get_filtered_graph (some g) f = some g ∧
    (g.edges ≠ [] → ∃ h, get_filtered_graph (some g) f = some h ∧ h.edges ≠ []) := by
  have hmain : get_filtered_graph (some g) f = some g := by
    simp [get_filtered_graph, hd, hp, hc]
  exact ⟨hmain, fun hne => ⟨g, hmain, hne⟩⟩

/-- Witness for C5 at a concrete non-empty graph and all-off road flags. -/
theorem no_road_flags_falls_back_to_full_graph_witness :
    get_filtered_graph (some g0) ⟨true, true, false, false, false⟩ = some g0 ∧
    (g0.edges ≠ [] → ∃ h, get_filtered_graph (some g0) ⟨true, true, false, false, false⟩ = some h ∧ h.edges ≠ []) :=
  no_road_flags_falls_back_to_full_graph g0 ⟨true, true, false, false, false⟩
    rfl rfl rfl

theorem jstatus_str_ne_not_found (st : JStatus) : st.str ≠ "not_found" := by
  cases st <;> decide

/-- Claim C9: the status-polling endpoint is a total function of the
registry; an unknown identifier yields the distinct `not_found` snapshot,
and a known identifier yields the job's own status, percent, message,
artifact URLs and error, whose status string is never `not_found`. -/
theorem polling_snapshot_total (reg : List (String × Job)) (job_id : String) :
    (lookupJob reg job_id = none →
      get_progress reg job_id = { status := some "not_found" }) ∧
    ∀ j, lookupJob reg job_id = some j →
      (get_progress reg job_id).status = some j.status.str ∧
      (get_progress reg job_id).percent = some j.percent ∧
      (get_progress reg job_id).message = some j.message ∧
      (get_progress reg job_id).preview_url = j.preview_url ∧
      (get_progress reg job_id).poster_url = j.poster_url ∧
      (get_progress reg job_id).error = j.error ∧
      j.status.str ≠ "not_found" := by
  constructor
  · intro h
    simp [get_progress, h]
  · intro j h
    refine ⟨?_, ?_, ?_, ?_, ?_, ?_, jstatus_str_ne_not_found _⟩ <;>
      simp [get_progress, h]

/-- Witness for C9: a one-job registry and the empty registry. -/
theorem polling_snapshot_total_witness :
    (get_progress [] "missing" = { status := some "not_found" }) ∧
    (get_progress [("a", initJob req0 0)] "a").status = some "starting" := by
  constructor
  · exact (polling_snapshot_total [] "missing").1 rfl
  · have h := ((polling_snapshot_total [("a", initJob req0 0)] "a").2
      (initJob req0 0) (by rfl)).1
    rw [h]
    rfl

theorem lookupJob_cleanup_scan (reg : List (String × Job)) (t : Rat)
    (job_id : String) (j : Job) (h : lookupJob reg job_id = some j)
    (hx : expired j t = false) :
    lookupJob (cleanup_scan reg t) job_id = some j := by
  induction reg with
  | nil => simp [lookupJob] at h
  | cons p tl ih =>
    by_cases hp : p.1 = job_id
    · simp only [lookupJob, if_pos hp] at h
      cases h
      simp [cleanup_scan, hx, lookupJob, hp]
    · simp only [lookupJob, if_neg hp] at h
      by_cases hk : expired p.2 t
      · simpa [cleanup_scan, hk] using ih h
      · have := ih h
        simp only [cleanup_scan] at this ⊢
        simp [hk, lookupJob, hp, this]

/-- Claim C10: a job record without a `created_at` timestamp — which is
every job stored by the final-generation endpoint — is treated by the
cleanup sweep as created at the instant of the scan and is never evicted,
at any scan time; only records carrying a timestamp (those stored by the
preview endpoint) are evicted, exactly when the time-to-live has elapsed. -/
theorem cleanup_spares_timestampless_final_jobs :
    (∀ (j : Job) (t : Rat), j.created_at = none → expired j t = false) ∧
    (∀ (j : Job) (t ca : Rat), j.created_at = some ca →
      (expired j t = true ↔ JOB_EXPIRY_SECONDS < t - ca)) ∧
    (∀ req : Req, (finitJob req).created_at = none) ∧
    (∀ (req : Req) (t : Rat), (initJob req t).created_at = some t) ∧
    (∀ (reg : List (String × Job)) (t : Rat) (job_id : String) (j : Job),
      lookupJob reg job_id = some j → j.created_at = none →
      lookupJob (cleanup_scan reg t) job_id = some j) ∧
    (∀ (req : Req) (s : FState) (j : Job), s.job = some j →
      j.created_at = none → (fstep req FInput.sweep s).job = some j) := by
  have h1 : ∀ (j : Job) (t : Rat), j.created_at = none → expired j t = false := by
    intro j t h
    simp [expired, h, JOB_EXPIRY_SECONDS]
  refine ⟨h1, ?_, fun _ => rfl, fun _ _ => rfl, ?_, ?_⟩
  · intro j t ca h
    simp [expired, h, JOB_EXPIRY_SECONDS]
  · intro reg t job_id j h hnone
    exact lookupJob_cleanup_scan reg t job_id j h (h1 j t hnone)
  · intro req s j h hnone
    simp [fstep, h, h1 j s.now hnone]

/-- Witness for C10: a concrete final-generation record survives a sweep
ten hours in, while the preview record from the same request is expired. -/
theorem cleanup_spares_timestampless_final_jobs_witness :
    lookupJob (cleanup_scan [("f", finitJob req0), ("p", initJob req0 0)] 36000) "f"
      = some (finitJob req0) ∧
    expired (finitJob req0) 36000 = false ∧
    expired (initJob req0 0) 36000 = true := by
  refine ⟨?_, ?_, ?_⟩
  · exact cleanup_spares_timestampless_final_jobs.2.2.2.2.1
      [("f", finitJob req0), ("p", initJob req0 0)] 36000 "f" (finitJob req0)
      (by rfl) rfl
  · exact cleanup_spares_timestampless_final_jobs.1 (finitJob req0) 36000 rfl
  · exact (cleanup_spares_timestampless_final_jobs.2.1 (initJob req0 0) 36000 0
      rfl).mpr (by norm_num [JOB_EXPIRY_SECONDS])

/-- Claim C8 counterexample: requesting radius 3000 on a known, completed
job falls outside every case of the claim's partition — the identifier is
known, no slot is locked for it, and no slot "exists but is not ready" —
so the claim's remaining case promises an artifact URL; the code instead
rejects the call with a NotAvailable error (HTTP 400 "Radius 3000m not
available") and mutates nothing. -/
theorem switch_radius_unknown_radius_errors :
    (lookupJob reg1 "jobone").isSome = true ∧
    lookupR jobC.radiuses 3000 = none ∧
    (switch_radius reg1 "jobone" 3000).2 = Except.error SwitchErr.notAvailable ∧
    (switch_radius reg1 "jobone" 3000).1 = reg1 := by
  refine ⟨rfl, rfl, rfl, rfl⟩

/-- Claim C8 amended: `switch_radius` returns NotFound for an unknown job,
NotAvailable for a radius with no slot, Locked for a locked slot, NotReady
for an existing unlocked slot that is not ready — each with no state
mutation — and for a ready slot (whose URL is always present and
non-empty in reachable states) it returns that URL and updates the active
radius, the job-level artifact pointer and the settings distance. -/
theorem switch_radius_cases (reg : List (String × Job)) (jid : String)
    (r : Nat) :
    (lookupJob reg jid = none →
      switch_radius reg jid r = (reg, Except.error SwitchErr.notFoundJob)) ∧
    ∀ j, lookupJob reg jid = some j →
      (lookupR j.radiuses r = none →
        switch_radius reg jid r = (reg, Except.error SwitchErr.notAvailable)) ∧
      ∀ rd, lookupR j.radiuses r = some rd →
        (rd.status = SlotStatus.locked →
          switch_radius reg jid r = (reg, Except.error SwitchErr.lockedErr)) ∧
        (rd.status ≠ SlotStatus.locked → rd.status ≠ SlotStatus.ready →
          switch_radius reg jid r = (reg, Except.error SwitchErr.stillLoading)) ∧
        ∀ u, rd.status = SlotStatus.ready → rd.preview_url = some u → u ≠ "" →
          switch_radius reg jid r =
            (setJob reg jid
              { j with current_radius := some r, preview_url := some u,
                       settings := j.settings.map fun s0 =>
                         { s0 with distance := some r } },
             Except.ok u) := by
  constructor
  · intro h
    simp [switch_radius, h]
  · intro j hj
    refine ⟨?_, ?_⟩
    · intro h
      simp [switch_radius, switch_radius_job, hj, h]
    · intro rd hrd
      refine ⟨?_, ?_, ?_⟩
      · intro h
        simp [switch_radius, switch_radius_job, hj, hrd, h]
      · intro h1 h2
        simp [switch_radius, switch_radius_job, hj, hrd, h1, h2]
      · intro u hready hurl hne
        simp [switch_radius, switch_radius_job, hj, hrd, hready, hurl, hne]

/-- Witness for C8: each branch of the amended contract exercised on the
completed one-job registry. -/
theorem switch_radius_cases_witness :
    switch_radius reg1 "nope" 10000 =
      (reg1, Except.error SwitchErr.notFoundJob) ∧
    switch_radius reg1 "jobone" 15000 =
      (reg1, Except.error SwitchErr.lockedErr) ∧
    switch_radius reg1 "jobone" 5000 =
      (reg1, Except.error SwitchErr.stillLoading) ∧
    (switch_radius reg1 "jobone" 10000).2 =
      Except.ok "/previews/preview_prague_noir_ab12cd34_10km.png" := by
  refine ⟨?_, ?_, ?_, ?_⟩
  · exact (switch_radius_cases reg1 "nope" 10000).1 (by rfl)
  · have h := (((switch_radius_cases reg1 "jobone" 15000).2 jobC (by rfl)).2
      { status := SlotStatus.locked } (by rfl)).1 rfl
    exact h
  · have h := (((switch_radius_cases reg1 "jobone" 5000).2 jobC (by rfl)).2
      { status := SlotStatus.pending } (by rfl)).2.1 (by decide) (by decide)
    exact h
  · have h := (((switch_radius_cases reg1 "jobone" 10000).2 jobC (by rfl)).2
      { status := SlotStatus.ready, graph_all := some g0, water := none,
        parks := none,
        preview_url := some "/previews/preview_prague_noir_ab12cd34_10km.png",
        compensated_dist := some (compDist req0 INITIAL_RADIUS) } (by rfl)).2.2
      "/previews/preview_prague_noir_ab12cd34_10km.png" rfl rfl (by decide)
    rw [h]

theorem lookupR_updR_cacheView (rs : List (Nat × RadiusData)) (cr r : Nat)
    (f : RadiusData → RadiusData) (hf : ∀ rd, cacheView (f rd) = cacheView rd) :
    (lookupR (updR rs cr f) r).map cacheView =
      (lookupR rs r).map cacheView := by
  rw [lookupR_updR]
  by_cases h : r = cr
  · subst h
    cases lookupR rs r <;> simp [hf]
  · simp [h]

theorem toggle_cacheView (j : Job) (d : FeatureDelta) (ok : Bool) (r : Nat) :
    (lookupR (toggle_features_job j d ok).radiuses r).map cacheView =
      (lookupR j.radiuses r).map cacheView := by
  unfold toggle_features_job
  cases h : lookupR j.radiuses (j.current_radius.getD INITIAL_RADIUS) with
  | none => simp [h]
  | some rd =>
    simp only [h]
    by_cases hg : rd.status ≠ SlotStatus.ready ∨ rd.graph_all = none
    · simp [hg]
    · simp only [if_neg hg]
      by_cases hok : ok
      · subst hok
        simp only [Bool.not_true, Bool.false_eq_true, if_false]
        refine lookupR_updR_cacheView _ _ _ _ fun rd0 => ?_
        rfl
      · simp [hok]

theorem theme_cacheView (j : Job) (t : String) (tok ok : Bool) (r : Nat) :
    (lookupR (switch_theme_job j t tok ok).radiuses r).map cacheView =
      (lookupR j.radiuses r).map cacheView := by
  unfold switch_theme_job
  cases h : lookupR j.radiuses (j.current_radius.getD INITIAL_RADIUS) with
  | none => simp [h]
  | some rd =>
    simp only [h]
    by_cases hg : rd.status ≠ SlotStatus.ready ∨ rd.graph_all = none
    · simp [hg]
    · simp only [if_neg hg]
      by_cases htok : tok
      · subst htok
        simp only [Bool.not_true, Bool.false_eq_true, if_false]
        by_cases hok : ok
        · subst hok
          simp only [Bool.not_true, Bool.false_eq_true, if_false]
          refine lookupR_updR_cacheView _ _ _ _ fun rd0 => ?_
          rfl
        · simp [hok]
      · simp [htok]

theorem rerender_pstep_cache (req : Req) (i : PInput) (hi : rerenderInput i)
    (s : PState) :
    (pstep req i s).fetchCount5 = s.fetchCount5 ∧
    (pstep req i s).fetchCount10 = s.fetchCount10 ∧
    ∀ j, s.job = some j → ∃ j', (pstep req i s).job = some j' ∧
      ∀ r, (lookupR j'.radiuses r).map cacheView =
        (lookupR j.radiuses r).map cacheView := by
  cases i <;> simp only [rerenderInput] at hi
  case callSwitchTheme t tok rok =>
    cases hj : s.job with
    | none => simp [pstep, hj]
    | some j =>
      refine ⟨by simp [pstep, hj], by simp [pstep, hj], ?_⟩
      intro j1 hj1
      cases hj1
      exact ⟨switch_theme_job j t tok rok, by simp [pstep, hj],
        theme_cacheView j t tok rok⟩
  case callToggle d rok =>
    cases hj : s.job with
    | none => simp [pstep, hj]
    | some j =>
      refine ⟨by simp [pstep, hj], by simp [pstep, hj], ?_⟩
      intro j1 hj1
      cases hj1
      exact ⟨toggle_features_job j d rok, by simp [pstep, hj],
        toggle_cacheView j d rok⟩

/-- Claim C4: feature-toggle and theme-switch re-renders never fetch: any
sequence of such calls leaves both per-slot fetch counters and every
slot's cached primary dataset, water/parks datasets, derived render
distance and status untouched (so a counter at 1 stays at 1); and on a
job whose active slot is ready and populated, a single such call produces
a fresh non-empty artifact URL in the job and the slot while preserving
the slot's cached data. -/
theorem ready_slot_rerender_reuses_cache (req : Req) :
    (∀ l : List PInput, (∀ i ∈ l, rerenderInput i) → ∀ s : PState,
      (prunFrom req s l).fetchCount5 = s.fetchCount5 ∧
      (prunFrom req s l).fetchCount10 = s.fetchCount10 ∧
      ∀ j, s.job = some j → ∃ j', (prunFrom req s l).job = some j' ∧
        ∀ r, (lookupR j'.radiuses r).map cacheView =
          (lookupR j.radiuses r).map cacheView) ∧
    (∀ (j : Job) (d : FeatureDelta) (cr : Nat) (rd : RadiusData),
      j.current_radius = some cr → lookupR j.radiuses cr = some rd →
      rd.status = SlotStatus.ready → rd.graph_all ≠ none →
      ∃ u, u ≠ "" ∧ (toggle_features_job j d true).preview_url = some u ∧
        ∃ rd', lookupR (toggle_features_job j d true).radiuses cr = some rd' ∧
          rd'.preview_url = some u ∧ cacheView rd' = cacheView rd) ∧
    ∀ (j : Job) (t : String) (cr : Nat) (rd : RadiusData),
      j.current_radius = some cr → lookupR j.radiuses cr = some rd →
      rd.status = SlotStatus.ready → rd.graph_all ≠ none →
      ∃ u, u ≠ "" ∧ (switch_theme_job j t true true).preview_url = some u ∧
        ∃ rd', lookupR (switch_theme_job j t true true).radiuses cr = some rd' ∧
          rd'.preview_url = some u ∧ cacheView rd' = cacheView rd := by
  refine ⟨?_, ?_, ?_⟩
  · intro l
    induction l with
    | nil =>
      intro _ s
      exact ⟨rfl, rfl, fun j hj => ⟨j, hj, fun r => rfl⟩⟩
    | cons i tl ih =>
      intro hl s
      have hi : rerenderInput i := hl i (List.mem_cons_self _ _)
      have htl : ∀ x ∈ tl, rerenderInput x := fun x hx =>
        hl x (List.mem_cons_of_mem _ hx)
      have h1 := rerender_pstep_cache req i hi s
      have h2 := ih htl (pstep req i s)
      refine ⟨?_, ?_, ?_⟩
      · calc (prunFrom req s (i :: tl)).fetchCount5
            = (prunFrom req (pstep req i s) tl).fetchCount5 := rfl
          _ = (pstep req i s).fetchCount5 := h2.1
          _ = s.fetchCount5 := h1.1
      · calc (prunFrom req s (i :: tl)).fetchCount10
            = (prunFrom req (pstep req i s) tl).fetchCount10 := rfl
          _ = (pstep req i s).fetchCount10 := h2.2.1
          _ = s.fetchCount10 := h1.2.1
      · intro j hj
        obtain ⟨jm, hjm, hcm⟩ := h1.2.2 j hj
        obtain ⟨jf, hjf, hcf⟩ := h2.2.2 jm hjm
        exact ⟨jf, hjf, fun r => (hcf r).trans (hcm r)⟩
  · intro j d cr rd hcr hrd hready hga
    have hguard : ¬(rd.status ≠ SlotStatus.ready ∨ rd.graph_all = none) := by
      simp [hready, hga]
    refine ⟨"/previews/" ++ (j.base_name.getD "" ++ "_" ++ toString (cr / 1000) ++
        "km_" ++ featureHash (mergeFeatures j.features d) ++ ".png"),
      append_ne_empty _ _ (by decide), ?_, ?_⟩
    · unfold toggle_features_job
      simp [hcr, hrd, hguard]
    · unfold toggle_features_job
      simp only [hcr, Option.getD_some, hrd, if_neg hguard, Bool.not_true,
        Bool.false_eq_true, if_false]
      rw [lookupR_updR]
      simp [hrd, cacheView]
  · intro j t cr rd hcr hrd hready hga
    have hguard : ¬(rd.status ≠ SlotStatus.ready ∨ rd.graph_all = none) := by
      simp [hready, hga]
    refine ⟨"/previews/" ++ (rsplitHead (j.base_name.getD "") ++ "_" ++ t ++
        "_" ++ toString (cr / 1000) ++ "km.png"),
      append_ne_empty _ _ (by decide), ?_, ?_⟩
    · unfold switch_theme_job
      simp [hcr, hrd, hguard]
    · unfold switch_theme_job
      simp only [hcr, Option.getD_some, hrd, if_neg hguard, Bool.not_true,
        Bool.false_eq_true, if_false]
      rw [lookupR_updR]
      simp [hrd, cacheView]

/-- Witness for C4: a toggle followed by a theme switch on the completed
job keeps both fetch counters and the cached slot data, and a single
toggle call on the completed job yields a fresh non-empty URL. -/
theorem ready_slot_rerender_reuses_cache_witness :
    (prunFrom req0 completedState
        [PInput.callToggle { water := some false } true,
         PInput.callSwitchTheme "sunset" true true]).fetchCount5
      = completedState.fetchCount5 ∧
    (prunFrom req0 completedState
        [PInput.callToggle { water := some false } true,
         PInput.callSwitchTheme "sunset" true true]).fetchCount10
      = completedState.fetchCount10 ∧
    (∃ j', (prunFrom req0 completedState
        [PInput.callToggle { water := some false } true,
         PInput.callSwitchTheme "sunset" true true]).job = some j' ∧
      ∀ r, (lookupR j'.radiuses r).map cacheView =
        (lookupR jobC.radiuses r).map cacheView) ∧
    ∃ u, u ≠ "" ∧
      (toggle_features_job jobC { water := some false } true).preview_url
        = some u := by
  have hmem : ∀ i ∈ [PInput.callToggle ({ water := some false } : FeatureDelta) true,
      PInput.callSwitchTheme "sunset" true true], rerenderInput i := by
    intro i hi
    rcases List.mem_cons.mp hi with rfl | hi2
    · trivial
    · rcases List.mem_cons.mp hi2 with rfl | h
      · trivial
      · cases h
  have h := (ready_slot_rerender_reuses_cache req0).1 _ hmem completedState
  refine ⟨h.1, h.2.1, h.2.2 jobC rfl, ?_⟩
  obtain ⟨u, hu, hjob, -⟩ := (ready_slot_rerender_reuses_cache req0).2.1 jobC
    { water := some false } 10000
    { status := SlotStatus.ready, graph_all := some g0, water := none,
      parks := none,
      preview_url := some "/previews/preview_prague_noir_ab12cd34_10km.png",
      compensated_dist := some (compDist req0 INITIAL_RADIUS) }
    rfl rfl rfl (by simp)
  exact ⟨u, hu, hjob⟩

theorem readyUrlsOk_updR (rs : List (Nat × RadiusData)) (cr : Nat)
    (f : RadiusData → RadiusData)
    (hm : ∀ p ∈ rs, slotGood (p : Nat × RadiusData).2)
    (hf : ∀ rd, slotGood rd → slotGood (f rd)) :
    ∀ p ∈ updR rs cr f, slotGood (p : Nat × RadiusData).2 := by
  intro p hp
  unfold updR at hp
  obtain ⟨q, hq, hgq⟩ := List.mem_map.mp hp
  subst hgq
  by_cases h : q.1 = cr
  · rw [if_pos h]
    exact hf q.2 (hm q hq)
  · rw [if_neg h]
    exact hm q hq

theorem lookupR_updR_isSome (rs : List (Nat × RadiusData)) (cr k : Nat)
    (f : RadiusData → RadiusData) :
    (lookupR (updR rs cr f) k).isSome = (lookupR rs k).isSome := by
  rw [lookupR_updR]
  by_cases h : k = cr
  · subst h
    cases lookupR rs k <;> simp
  · simp [h]

theorem slotKeysOk_updR (j j' : Job) (cr : Nat) (f : RadiusData → RadiusData)
    (hr : j'.radiuses = updR j.radiuses cr f) (h : slotKeysOk j) :
    slotKeysOk j' := by
  obtain ⟨h1, h2⟩ := h
  constructor <;> rw [hr, lookupR_updR_isSome] <;> assumption

theorem completeHasReady_updR (j j' : Job) (cr : Nat)
    (f : RadiusData → RadiusData) (hr : j'.radiuses = updR j.radiuses cr f)
    (hs : j'.status = j.status) (hf : ∀ rd, (f rd).status = rd.status)
    (h : completeHasReady j) : completeHasReady j' := by
  intro hc
  obtain ⟨rd, hrd, hready⟩ := h (hs ▸ hc)
  rw [hr, lookupR_updR]
  by_cases h10 : INITIAL_RADIUS = cr
  · rw [if_pos h10, ← h10, hrd]
    exact ⟨f rd, rfl, (hf rd).trans hready⟩
  · rw [if_neg h10]
    exact ⟨rd, hrd, hready⟩

theorem JobInv_congr (j j' : Job) (hr : j'.radiuses = j.radiuses)
    (hs : j'.status = j.status) (h : JobInv j) : JobInv j' := by
  obtain ⟨h1, h2, h3⟩ := h
  refine ⟨?_, ?_, ?_⟩
  · unfold slotKeysOk at h1 ⊢
    rw [hr]
    exact h1
  · unfold readyUrlsOk at h2 ⊢
    rw [hr]
    exact h2
  · unfold completeHasReady at h3 ⊢
    rw [hr, hs]
    exact h3

theorem completeHasReady_of_ne (j : Job) (h : j.status ≠ JStatus.complete) :
    completeHasReady j := fun hc => absurd hc h

theorem switch_radius_job_ok (j : Job) (r : Nat) (j1 : Job) (u : String)
    (h : switch_radius_job j r = Except.ok (j1, u)) :
    j1.radiuses = j.radiuses ∧ j1.status = j.status ∧
    j1.percent = j.percent ∧ j1.created_at = j.created_at := by
  unfold switch_radius_job at h
  cases hl : lookupR j.radiuses r with
  | none => rw [hl] at h; cases h
  | some rd =>
    rw [hl] at h
    dsimp only at h
    by_cases h1 : rd.status = SlotStatus.locked
    · rw [if_pos h1] at h; cases h
    · rw [if_neg h1] at h
      by_cases h2 : rd.status ≠ SlotStatus.ready
      · rw [if_pos h2] at h; cases h
      · rw [if_neg h2] at h
        cases hu : rd.preview_url with
        | none => rw [hu] at h; cases h
        | some url =>
          rw [hu] at h
          dsimp only at h
          by_cases h3 : url = ""
          · rw [if_pos h3] at h; cases h
          · rw [if_neg h3] at h
            simp only [Except.ok.injEq, Prod.mk.injEq] at h
            obtain ⟨hj, hu2⟩ := h
            subst hj
            exact ⟨rfl, rfl, rfl, rfl⟩

theorem JobInv_toggle (j : Job) (d : FeatureDelta) (ok : Bool)
    (h : JobInv j) : JobInv (toggle_features_job j d ok) := by
  unfold toggle_features_job
  cases hl : lookupR j.radiuses (j.current_radius.getD INITIAL_RADIUS) with
  | none => simpa [hl] using h
  | some rd =>
    simp only [hl]
    by_cases hg : rd.status ≠ SlotStatus.ready ∨ rd.graph_all = none
    · simpa [hg] using h
    · simp only [if_neg hg]
      by_cases hok : ok
      · subst hok
        simp only [Bool.not_true, Bool.false_eq_true, if_false]
        obtain ⟨hk, hu, hc⟩ := h
        refine ⟨?_, ?_, ?_⟩
        · unfold slotKeysOk at hk ⊢
          dsimp only
          rw [lookupR_updR_isSome, lookupR_updR_isSome]
          exact hk
        · unfold readyUrlsOk at hu ⊢
          dsimp only
          refine readyUrlsOk_updR _ _ _ hu fun rd0 hg0 => ?_
          intro _
          exact ⟨_, rfl, append_ne_empty _ _ (by decide)⟩
        · unfold completeHasReady at hc ⊢
          dsimp only
          intro hcs
          obtain ⟨rd1, hrd1, hready1⟩ := hc hcs
          rw [lookupR_updR]
          by_cases h10 : INITIAL_RADIUS = j.current_radius.getD INITIAL_RADIUS
          · rw [if_pos h10, ← h10, hrd1]
            exact ⟨_, rfl, hready1⟩
          · rw [if_neg h10]
            exact ⟨rd1, hrd1, hready1⟩
      · simp only [hok, Bool.not_false, if_true]
        exact JobInv_congr j _ rfl rfl h

theorem JobInv_theme (j : Job) (t : String) (tok ok : Bool)
    (h : JobInv j) : JobInv (switch_theme_job j t tok ok) := by
  unfold switch_theme_job
  cases hl : lookupR j.radiuses (j.current_radius.getD INITIAL_RADIUS) with
  | none => simpa [hl] using h
  | some rd =>
    simp only [hl]
    by_cases hg : rd.status ≠ SlotStatus.ready ∨ rd.graph_all = none
    · simpa [hg] using h
    · simp only [if_neg hg]
      by_cases htok : tok
      · subst htok
        simp only [Bool.not_true, Bool.false_eq_true, if_false]
        by_cases hok : ok
        · subst hok
          simp only [Bool.not_true, Bool.false_eq_true, if_false]
          obtain ⟨hk, hu, hc⟩ := h
          refine ⟨?_, ?_, ?_⟩
          · unfold slotKeysOk at hk ⊢
            dsimp only
            rw [lookupR_updR_isSome, lookupR_updR_isSome]
            exact hk
          · unfold readyUrlsOk at hu ⊢
            dsimp only
            refine readyUrlsOk_updR _ _ _ hu fun rd0 hg0 => ?_
            intro _
            exact ⟨_, rfl, append_ne_empty _ _ (by decide)⟩
          · unfold completeHasReady at hc ⊢
            dsimp only
            intro hcs
            obtain ⟨rd1, hrd1, hready1⟩ := hc hcs
            rw [lookupR_updR]
            by_cases h10 : INITIAL_RADIUS = j.current_radius.getD INITIAL_RADIUS
            · rw [if_pos h10, ← h10, hrd1]
              exact ⟨_, rfl, hready1⟩
            · rw [if_neg h10]
              exact ⟨rd1, hrd1, hready1⟩
        · simp only [hok, Bool.not_false, if_true]
          exact h
      · simp only [htok, Bool.not_false, if_true]
        exact h

theorem previewUrl_ne_empty (bn : String) (r : Nat) : previewUrl bn r ≠ "" := by
  unfold previewUrl
  exact append_ne_empty _ _
    (append_ne_empty _ _ (append_ne_empty _ _ (append_ne_empty _ _ (by decide))))

theorem pstep_PInv (req : Req) (i : PInput) (s : PState) (h : PInv s) :
    PInv (pstep req i s) := by
  intro j' hj'
  cases i
  case tick d =>
    by_cases hd : (0 : Rat) ≤ d <;> simp [pstep, hd] at hj' <;> exact h j' hj'
  case cancel =>
    cases hjob : s.job with
    | none => simp [pstep, hjob] at hj'
    | some j =>
      simp only [pstep, hjob, Option.some.injEq] at hj'
      subst hj'
      obtain ⟨hk, hu, hc⟩ := h j hjob
      exact ⟨hk, hu, fun hcs => JStatus.noConfusion hcs⟩
  case sweep =>
    cases hjob : s.job with
    | none => simp [pstep, hjob] at hj'
    | some j =>
      by_cases hx : expired j s.now
      · simp [pstep, hjob, hx] at hj'
      · simp only [pstep, hjob, hx, if_false, Bool.false_eq_true] at hj'
        exact h j' (hjob ▸ hj')
  case callSwitchRadius r =>
    cases hjob : s.job with
    | none => simp [pstep, hjob] at hj'
    | some j =>
      cases hsw : switch_radius_job j r with
      | error e =>
        simp only [pstep, hjob, hsw] at hj'
        exact h j' (hjob ▸ hj')
      | ok p =>
        obtain ⟨j1, u⟩ := p
        simp only [pstep, hjob, hsw, Option.some.injEq] at hj'
        subst hj'
        obtain ⟨hr, hs, -, -⟩ := switch_radius_job_ok j r j1 u hsw
        exact JobInv_congr j j1 hr hs (h j hjob)
  case callSwitchTheme t tok rok =>
    cases hjob : s.job with
    | none => simp [pstep, hjob] at hj'
    | some j =>
      simp only [pstep, hjob, Option.some.injEq] at hj'
      subst hj'
      exact JobInv_theme j t tok rok (h j hjob)
  case callToggle d rok =>
    cases hjob : s.job with
    | none => simp [pstep, hjob] at hj'
    | some j =>
      simp only [pstep, hjob, Option.some.injEq] at hj'
      subst hj'
      exact JobInv_toggle j d rok (h j hjob)
  case execStart loc =>
    cases hepc : s.epc
    case fetchPoll c t0 =>
      simp only [pstep, hepc] at hj'; exact h j' hj'
    case wpPoll c g t0 =>
      simp only [pstep, hepc] at hj'; exact h j' hj'
    case renderPoll c t0 =>
      simp only [pstep, hepc] at hj'; exact h j' hj'
    case finished =>
      simp only [pstep, hepc] at hj'; exact h j' hj'
    case created =>
      cases hjob : s.job with
      | none => simp [pstep, hepc, hjob] at hj'
      | some j =>
        obtain ⟨hk, hu, hc⟩ := h j hjob
        cases loc with
        | none =>
          simp only [pstep, hepc, hjob, Option.some.injEq] at hj'
          subst hj'
          exact ⟨hk, hu, fun hcs => JStatus.noConfusion hcs⟩
        | some c =>
          simp only [pstep, hepc, hjob, Option.some.injEq] at hj'
          subst hj'
          refine ⟨?_, ?_, fun hcs => JStatus.noConfusion hcs⟩
          · unfold slotKeysOk at hk ⊢
            dsimp only
            rw [lookupR_updR_isSome, lookupR_updR_isSome]
            exact hk
          · unfold readyUrlsOk at hu ⊢
            dsimp only
            refine readyUrlsOk_updR _ _ _ hu fun rd0 hg0 hready => ?_
            exact SlotStatus.noConfusion hready
  case execFetch dn res =>
    cases hepc : s.epc
    case created =>
      simp only [pstep, hepc] at hj'; exact h j' hj'
    case wpPoll c g t0 =>
      simp only [pstep, hepc] at hj'; exact h j' hj'
    case renderPoll c t0 =>
      simp only [pstep, hepc] at hj'; exact h j' hj'
    case finished =>
      simp only [pstep, hepc] at hj'; exact h j' hj'
    case fetchPoll c t0 =>
      cases dn with
      | true =>
        cases hjob : s.job with
        | none => simp [pstep, hepc, hjob] at hj'
        | some j =>
          obtain ⟨hk, hu, hc⟩ := h j hjob
          cases res with
          | none =>
            simp only [pstep, hepc, hjob, if_true, Option.some.injEq] at hj'
            subst hj'
            exact ⟨hk, hu, fun hcs => JStatus.noConfusion hcs⟩
          | some g =>
            simp only [pstep, hepc, hjob, if_true, Option.some.injEq] at hj'
            subst hj'
            exact ⟨hk, hu, hc⟩
      | false =>
        cases hcanc : s.cancelled with
        | true =>
          simp only [pstep, hepc, hcanc, Bool.false_eq_true, if_false,
            if_true] at hj'
          exact h j' hj'
        | false =>
          cases hjob : s.job with
          | none => simp [pstep, hepc, hjob, hcanc] at hj'
          | some j =>
            simp only [pstep, hepc, hjob, hcanc, Bool.false_eq_true, if_false,
              Option.some.injEq] at hj'
            subst hj'
            exact h j hjob
  case execWP dn w p =>
    cases hepc : s.epc
    case created =>
      simp only [pstep, hepc] at hj'; exact h j' hj'
    case fetchPoll c t0 =>
      simp only [pstep, hepc] at hj'; exact h j' hj'
    case renderPoll c t0 =>
      simp only [pstep, hepc] at hj'; exact h j' hj'
    case finished =>
      simp only [pstep, hepc] at hj'; exact h j' hj'
    case wpPoll c g t0 =>
      cases dn with
      | true =>
        cases hjob : s.job with
        | none => simp [pstep, hepc, hjob] at hj'
        | some j =>
          obtain ⟨hk, hu, hc⟩ := h j hjob
          simp only [pstep, hepc, hjob, if_true, Option.some.injEq] at hj'
          subst hj'
          refine ⟨?_, ?_, ?_⟩
          · unfold slotKeysOk at hk ⊢
            dsimp only
            rw [lookupR_updR_isSome, lookupR_updR_isSome]
            exact hk
          · unfold readyUrlsOk at hu ⊢
            dsimp only
            refine readyUrlsOk_updR _ _ _ hu fun rd0 hg0 hready => hg0 hready
          · unfold completeHasReady at hc ⊢
            dsimp only
            intro hcs
            obtain ⟨rd1, hrd1, hready1⟩ := hc hcs
            rw [lookupR_updR, if_pos rfl, hrd1]
            exact ⟨_, rfl, hready1⟩
      | false =>
        cases hcanc : s.cancelled with
        | true =>
          simp only [pstep, hepc, hcanc, Bool.false_eq_true, if_false,
            if_true] at hj'
          exact h j' hj'
        | false =>
          cases hjob : s.job with
          | none => simp [pstep, hepc, hjob, hcanc] at hj'
          | some j =>
            simp only [pstep, hepc, hjob, hcanc, Bool.false_eq_true, if_false,
              Option.some.injEq] at hj'
            subst hj'
            exact h j hjob
  case execRender dn ok =>
    cases hepc : s.epc
    case created =>
      simp only [pstep, hepc] at hj'; exact h j' hj'
    case fetchPoll c t0 =>
      simp only [pstep, hepc] at hj'; exact h j' hj'
    case wpPoll c g t0 =>
      simp only [pstep, hepc] at hj'; exact h j' hj'
    case finished =>
      simp only [pstep, hepc] at hj'; exact h j' hj'
    case renderPoll c t0 =>
      cases dn with
      | true =>
        cases ok with
        | true =>
          cases hjob : s.job with
          | none => simp [pstep, hepc, hjob] at hj'
          | some j =>
            obtain ⟨hk, hu, hc⟩ := h j hjob
            simp only [pstep, hepc, hjob, if_true, Option.some.injEq] at hj'
            subst hj'
            refine ⟨?_, ?_, ?_⟩
            · unfold slotKeysOk at hk ⊢
              dsimp only
              rw [lookupR_updR_isSome, lookupR_updR_isSome]
              exact hk
            · unfold readyUrlsOk at hu ⊢
              dsimp only
              refine readyUrlsOk_updR _ _ _ hu fun rd0 hg0 hready => ?_
              exact ⟨_, rfl, previewUrl_ne_empty _ _⟩
            · unfold completeHasReady at hc ⊢
              dsimp only
              intro hcs
              obtain ⟨rd0, hrd0⟩ := Option.isSome_iff_exists.mp hk.1
              rw [lookupR_updR, if_pos rfl, hrd0]
              exact ⟨_, rfl, rfl⟩
        | false =>
          cases hjob : s.job with
          | none => simp [pstep, hepc, hjob] at hj'
          | some j =>
            obtain ⟨hk, hu, hc⟩ := h j hjob
            simp [pstep, hepc, hjob] at hj'
            subst hj'
            exact ⟨hk, hu, fun hcs => JStatus.noConfusion hcs⟩
      | false =>
        cases hcanc : s.cancelled with
        | true =>
          simp only [pstep, hepc, hcanc, Bool.false_eq_true, if_false,
            if_true] at hj'
          exact h j' hj'
        | false =>
          cases hjob : s.job with
          | none => simp [pstep, hepc, hjob, hcanc] at hj'
          | some j =>
            simp only [pstep, hepc, hjob, hcanc, Bool.false_eq_true, if_false,
              Option.some.injEq] at hj'
            subst hj'
            exact h j hjob
  case widenStart =>
    cases hwpc : s.wpc
    case notSpawned => simp only [pstep, hwpc] at hj'; exact h j' hj'
    case wFetch c bn => simp only [pstep, hwpc] at hj'; exact h j' hj'
    case wWater c bn g => simp only [pstep, hwpc] at hj'; exact h j' hj'
    case wParks c bn g w => simp only [pstep, hwpc] at hj'; exact h j' hj'
    case wRender bn => simp only [pstep, hwpc] at hj'; exact h j' hj'
    case wFinished b => simp only [pstep, hwpc] at hj'; exact h j' hj'
    case spawned c =>
      cases hjob : s.job with
      | none => simp [pstep, hwpc, hjob] at hj'
      | some j =>
        cases hcanc : s.cancelled with
        | true =>
          simp only [pstep, hwpc, hjob, hcanc, if_true] at hj'
          exact h j' (hjob ▸ hj')
        | false =>
          obtain ⟨hk, hu, hc⟩ := h j hjob
          simp only [pstep, hwpc, hjob, hcanc, Bool.false_eq_true, if_false,
            Option.some.injEq] at hj'
          subst hj'
          refine ⟨?_, ?_, ?_⟩
          · unfold slotKeysOk at hk ⊢
            dsimp only
            rw [lookupR_updR_isSome, lookupR_updR_isSome]
            exact hk
          · unfold readyUrlsOk at hu ⊢
            dsimp only
            refine readyUrlsOk_updR _ _ _ hu fun rd0 hg0 hready => ?_
            exact SlotStatus.noConfusion hready
          · unfold completeHasReady at hc ⊢
            dsimp only
            intro hcs
            obtain ⟨rd1, hrd1, hready1⟩ := hc hcs
            rw [lookupR_updR, if_neg (by decide)]
            exact ⟨rd1, hrd1, hready1⟩
  case widenFetch res =>
    cases hwpc : s.wpc
    case notSpawned => simp only [pstep, hwpc] at hj'; exact h j' hj'
    case spawned c => simp only [pstep, hwpc] at hj'; exact h j' hj'
    case wWater c bn g => simp only [pstep, hwpc] at hj'; exact h j' hj'
    case wParks c bn g w => simp only [pstep, hwpc] at hj'; exact h j' hj'
    case wRender bn => simp only [pstep, hwpc] at hj'; exact h j' hj'
    case wFinished b => simp only [pstep, hwpc] at hj'; exact h j' hj'
    case wFetch c bn =>
      cases res with
      | some g =>
        simp only [pstep, hwpc] at hj'
        exact h j' hj'
      | none =>
        cases hjob : s.job with
        | none => simp [pstep, hwpc, hjob] at hj'
        | some j =>
          obtain ⟨hk, hu, hc⟩ := h j hjob
          simp only [pstep, hwpc, hjob, Option.some.injEq] at hj'
          subst hj'
          refine ⟨?_, ?_, ?_⟩
          · unfold slotKeysOk at hk ⊢
            dsimp only
            rw [lookupR_updR_isSome, lookupR_updR_isSome]
            exact hk
          · unfold readyUrlsOk at hu ⊢
            dsimp only
            refine readyUrlsOk_updR _ _ _ hu fun rd0 hg0 hready => ?_
            exact SlotStatus.noConfusion hready
          · unfold completeHasReady at hc ⊢
            dsimp only
            intro hcs
            obtain ⟨rd1, hrd1, hready1⟩ := hc hcs
            rw [lookupR_updR, if_neg (by decide)]
            exact ⟨rd1, hrd1, hready1⟩
  case widenWater w =>
    cases hwpc : s.wpc <;> simp only [pstep, hwpc] at hj' <;> exact h j' hj'
  case widenParks p =>
    cases hwpc : s.wpc
    case notSpawned => simp only [pstep, hwpc] at hj'; exact h j' hj'
    case spawned c => simp only [pstep, hwpc] at hj'; exact h j' hj'
    case wFetch c bn => simp only [pstep, hwpc] at hj'; exact h j' hj'
    case wWater c bn g => simp only [pstep, hwpc] at hj'; exact h j' hj'
    case wRender bn => simp only [pstep, hwpc] at hj'; exact h j' hj'
    case wFinished b => simp only [pstep, hwpc] at hj'; exact h j' hj'
    case wParks c bn g w =>
      cases hjob : s.job with
      | none => simp [pstep, hwpc, hjob] at hj'
      | some j =>
        obtain ⟨hk, hu, hc⟩ := h j hjob
        simp only [pstep, hwpc, hjob, Option.some.injEq] at hj'
        subst hj'
        refine ⟨?_, ?_, ?_⟩
        · unfold slotKeysOk at hk ⊢
          dsimp only
          rw [lookupR_updR_isSome, lookupR_updR_isSome]
          exact hk
        · unfold readyUrlsOk at hu ⊢
          dsimp only
          refine readyUrlsOk_updR _ _ _ hu fun rd0 hg0 hready => hg0 hready
        · unfold completeHasReady at hc ⊢
          dsimp only
          intro hcs
          obtain ⟨rd1, hrd1, hready1⟩ := hc hcs
          rw [lookupR_updR, if_neg (by decide)]
          exact ⟨rd1, hrd1, hready1⟩
  case widenRender ok =>
    cases hwpc : s.wpc
    case notSpawned => simp only [pstep, hwpc] at hj'; exact h j' hj'
    case spawned c => simp only [pstep, hwpc] at hj'; exact h j' hj'
    case wFetch c bn => simp only [pstep, hwpc] at hj'; exact h j' hj'
    case wWater c bn g => simp only [pstep, hwpc] at hj'; exact h j' hj'
    case wParks c bn g w => simp only [pstep, hwpc] at hj'; exact h j' hj'
    case wFinished b => simp only [pstep, hwpc] at hj'; exact h j' hj'
    case wRender bn =>
      cases ok with
      | false =>
        simp only [pstep, hwpc, Bool.false_eq_true, if_false] at hj'
        exact h j' hj'
      | true =>
        cases hjob : s.job with
        | none => simp [pstep, hwpc, hjob] at hj'
        | some j =>
          obtain ⟨hk, hu, hc⟩ := h j hjob
          simp only [pstep, hwpc, hjob, if_true, Option.some.injEq] at hj'
          subst hj'
          refine ⟨?_, ?_, ?_⟩
          · unfold slotKeysOk at hk ⊢
            dsimp only
            rw [lookupR_updR_isSome, lookupR_updR_isSome]
            exact hk
          · unfold readyUrlsOk at hu ⊢
            dsimp only
            refine readyUrlsOk_updR _ _ _ hu fun rd0 hg0 hready => ?_
            exact ⟨_, rfl, previewUrl_ne_empty _ _⟩
          · unfold completeHasReady at hc ⊢
            dsimp only
            intro hcs
            obtain ⟨rd1, hrd1, hready1⟩ := hc hcs
            rw [lookupR_updR, if_neg (by decide)]
            exact ⟨rd1, hrd1, hready1⟩

theorem PInv_init (req : Req) : PInv (pinit req) := by
  intro j hj
  simp only [pinit, Option.some.injEq] at hj
  subst hj
  refine ⟨⟨?_, ?_⟩, ?_, fun hcs => JStatus.noConfusion hcs⟩
  · simp [initJob, lookupR, INITIAL_RADIUS]
  · simp [initJob, lookupR]
  · intro p hp
    simp only [initJob, List.mem_cons, List.not_mem_nil, or_false] at hp
    rcases hp with rfl | rfl | rfl | rfl <;>
      exact fun hready => SlotStatus.noConfusion hready

theorem PInv_prunFrom (req : Req) (l : List PInput) (s : PState)
    (h : PInv s) : PInv (prunFrom req s l) := by
  induction l generalizing s with
  | nil => exact h
  | cons i t ih => exact ih (pstep req i s) (pstep_PInv req i s h)

theorem PInv_prun (req : Req) (l : List PInput) : PInv (prun req l) :=
  PInv_prunFrom req l (pinit req) (PInv_init req)

/-- Claim C1 counterexample: a job created by the final-generation
endpoint reaches status `complete` with an empty radius-slot collection,
so the number of `ready` slots is 0, not exactly 1, refuting the claimed
invariant for such jobs. -/
theorem final_generation_complete_without_ready_slot :
    ((frun req0 [FInput.fStart (some c0), FInput.fFetchDone (some g0),
        FInput.fFeatDone none none,
        FInput.fRenderDone true]).job.map Job.status
      = some JStatus.complete) ∧
    ((frun req0 [FInput.fStart (some c0), FInput.fFetchDone (some g0),
        FInput.fFeatDone none none,
        FInput.fRenderDone true]).job.map Job.radiuses = some []) ∧
    ((frun req0 [FInput.fStart (some c0), FInput.fFetchDone (some g0),
        FInput.fFeatDone none none,
        FInput.fRenderDone true]).job.map readyCount = some 0) := by
  refine ⟨rfl, rfl, rfl⟩

/-- Claim C1 amended: in every reachable state of the preview system, a
job whose status is `complete` has its initial-radius slot `ready` with a
non-empty preview URL (at least one ready slot; the widen task may later
bring a second slot to `ready`); final-generation jobs, which have no
radius slots at all, do not satisfy the exactly-one property. -/
theorem complete_preview_job_has_ready_slot (req : Req) (l : List PInput)
    (j : Job) (hj : (prun req l).job = some j)
    (hc : j.status = JStatus.complete) :
    ∃ rd, lookupR j.radiuses INITIAL_RADIUS = some rd ∧
      rd.status = SlotStatus.ready ∧
      ∃ u, rd.preview_url = some u ∧ u ≠ "" := by
  obtain ⟨hk, hu, hcr⟩ := PInv_prun req l j hj
  obtain ⟨rd, hrd, hready⟩ := hcr hc
  exact ⟨rd, hrd, hready, hu _ (mem_of_lookupR _ _ _ hrd) hready⟩

/-- Witness for C1 amended: the completed happy-path preview state. -/
theorem complete_preview_job_has_ready_slot_witness :
    ∃ rd, lookupR jobC.radiuses INITIAL_RADIUS = some rd ∧
      rd.status = SlotStatus.ready ∧
      ∃ u, rd.preview_url = some u ∧ u ≠ "" :=
  complete_preview_job_has_ready_slot req0 happyInputs jobC rfl rfl

theorem switch_radius_job_noReady (j : Job) (r : Nat) (h : noReadySlot j) :
    ∀ p, switch_radius_job j r ≠ Except.ok p := by
  intro p hok
  unfold switch_radius_job at hok
  cases hl : lookupR j.radiuses r with
  | none => rw [hl] at hok; cases hok
  | some rd =>
    rw [hl] at hok
    dsimp only at hok
    have hnr : rd.status ≠ SlotStatus.ready := h (r, rd) (mem_of_lookupR _ _ _ hl)
    by_cases h1 : rd.status = SlotStatus.locked
    · rw [if_pos h1] at hok; cases hok
    · rw [if_neg h1, if_pos hnr] at hok; cases hok

theorem switch_theme_job_noReady (j : Job) (t : String) (tok ok : Bool)
    (h : noReadySlot j) : switch_theme_job j t tok ok = j := by
  unfold switch_theme_job
  cases hl : lookupR j.radiuses (j.current_radius.getD INITIAL_RADIUS) with
  | none => simp [hl]
  | some rd =>
    have hnr : rd.status ≠ SlotStatus.ready := h _ (mem_of_lookupR _ _ _ hl)
    simp [hl, hnr]

theorem toggle_features_job_noReady (j : Job) (d : FeatureDelta) (ok : Bool)
    (h : noReadySlot j) : toggle_features_job j d ok = j := by
  unfold toggle_features_job
  cases hl : lookupR j.radiuses (j.current_radius.getD INITIAL_RADIUS) with
  | none => simp [hl]
  | some rd =>
    have hnr : rd.status ≠ SlotStatus.ready := h _ (mem_of_lookupR _ _ _ hl)
    simp [hl, hnr]

theorem pstep_job_none (req : Req) (i : PInput) (s : PState)
    (hnone : (pstep req i s).job = none) : s.job = none ∨ i = PInput.sweep := by
  cases hjob : s.job with
  | none => exact Or.inl rfl
  | some j =>
    cases i
    case sweep => exact Or.inr rfl
    case tick d =>
      by_cases hd : (0 : Rat) ≤ d <;> simp [pstep, hd, hjob] at hnone
    case cancel => simp [pstep, hjob] at hnone
    case callSwitchRadius r =>
      cases hsw : switch_radius_job j r with
      | error e => simp [pstep, hjob, hsw] at hnone
      | ok p =>
        obtain ⟨j1, u⟩ := p
        simp [pstep, hjob, hsw] at hnone
    case callSwitchTheme t tok rok => simp [pstep, hjob] at hnone
    case callToggle d rok => simp [pstep, hjob] at hnone
    case execStart loc =>
      cases hepc : s.epc <;> cases loc <;> simp [pstep, hjob, hepc] at hnone
    case execFetch dn res =>
      cases hepc : s.epc <;> cases dn <;> cases res <;>
        cases hcanc : s.cancelled <;> simp [pstep, hjob, hepc, hcanc] at hnone
    case execWP dn w p =>
      cases hepc : s.epc <;> cases dn <;> cases hcanc : s.cancelled <;>
        simp [pstep, hjob, hepc, hcanc] at hnone
    case execRender dn ok =>
      cases hepc : s.epc <;> cases dn <;> cases ok <;>
        cases hcanc : s.cancelled <;> simp [pstep, hjob, hepc, hcanc] at hnone
    case widenStart =>
      cases hwpc : s.wpc <;> cases hcanc : s.cancelled <;>
        simp [pstep, hjob, hwpc, hcanc] at hnone
    case widenFetch res =>
      cases hwpc : s.wpc <;> cases res <;> simp [pstep, hjob, hwpc] at hnone
    case widenWater w =>
      cases hwpc : s.wpc <;> simp [pstep, hjob, hwpc] at hnone
    case widenParks p =>
      cases hwpc : s.wpc <;> simp [pstep, hjob, hwpc] at hnone
    case widenRender ok =>
      cases hwpc : s.wpc <;> cases ok <;> simp [pstep, hjob, hwpc] at hnone

/-- Claim C2 counterexample: the cancel endpoint mutates a job that is
already in the terminal state `complete`, overwriting its status field
with `cancelled`. -/
theorem cancel_mutates_terminal_job :
    (completedState.job.map Job.status = some JStatus.complete) ∧
    ((pstep req0 PInput.cancel completedState).job.map Job.status
      = some JStatus.cancelled) := ⟨rfl, rfl⟩

/-- Claim C2 amended: after a job reaches a terminal state it can still be
mutated — cancel overwrites exactly the status and message fields of any
existing job, and the switch/toggle endpoints mutate complete jobs that
have a ready slot — but a terminal job with no ready slot (every `error`
job, and any `cancelled` job that never completed) is left unchanged by
switch-radius, switch-theme and toggle-features, and the only transition
that deletes a job record is the cleanup sweep. -/
theorem terminal_job_mutation_bounds (req : Req) :
    (∀ (s : PState) (j : Job), s.job = some j →
      (pstep req PInput.cancel s).job =
        some { j with status := JStatus.cancelled, message := "Cancelled" }) ∧
    (∀ (j : Job) (r : Nat), noReadySlot j →
      ∀ p, switch_radius_job j r ≠ Except.ok p) ∧
    (∀ (j : Job) (t : String) (tok ok : Bool), noReadySlot j →
      switch_theme_job j t tok ok = j) ∧
    (∀ (j : Job) (d : FeatureDelta) (ok : Bool), noReadySlot j →
      toggle_features_job j d ok = j) ∧
    ∀ (i : PInput) (s : PState), (pstep req i s).job = none →
      s.job = none ∨ i = PInput.sweep := by
  refine ⟨?_, ?_, ?_, ?_, ?_⟩
  · intro s j hj
    simp [pstep, hj]
  · exact fun j r h => switch_radius_job_noReady j r h
  · exact fun j t tok ok h => switch_theme_job_noReady j t tok ok h
  · exact fun j d ok h => toggle_features_job_noReady j d ok h
  · exact fun i s h => pstep_job_none req i s h

/-- Witness for C2 amended: cancel on the completed state rewrites status
and message only, and an error job (failed locate) is untouched by a
radius switch. -/
theorem terminal_job_mutation_bounds_witness :
    ((pstep req0 PInput.cancel completedState).job =
      some { jobC with status := JStatus.cancelled, message := "Cancelled" }) ∧
    (∀ p, switch_radius_job (initJob req0 0) 10000 ≠ Except.ok p) := by
  constructor
  · exact (terminal_job_mutation_bounds req0).1 completedState jobC rfl
  · refine (terminal_job_mutation_bounds req0).2.1 (initJob req0 0) 10000 ?_
    intro p hp
    simp only [initJob, List.mem_cons, List.not_mem_nil, or_false] at hp
    rcases hp with rfl | rfl | rfl | rfl <;>
      exact fun hready => SlotStatus.noConfusion hready

theorem cancelFrozen_step (req : Req) (i : PInput) (s : PState)
    (h : cancelFrozen s) : cancelFrozen (pstep req i s) := by
  obtain ⟨hepc, hwpc, hjob⟩ := h
  cases i
  case tick d =>
    by_cases hd : (0 : Rat) ≤ d <;> simp only [pstep, hd, if_true, if_false] <;>
      exact ⟨hepc, hwpc, hjob⟩
  case cancel =>
    cases hj : s.job with
    | none => simpa [pstep, hj] using ⟨hepc, hwpc, hjob⟩
    | some j =>
      simp only [pstep, hj]
      refine ⟨hepc, hwpc, ?_⟩
      intro j1 hj1
      simp only [Option.some.injEq] at hj1
      subst hj1
      exact ⟨rfl, (hjob j hj).2⟩
  case sweep =>
    cases hj : s.job with
    | none => simpa [pstep, hj] using ⟨hepc, hwpc, hjob⟩
    | some j =>
      by_cases hx : expired j s.now
      · simp only [pstep, hj, hx, if_true]
        exact ⟨hepc, hwpc, fun j1 hj1 => Option.noConfusion hj1⟩
      · simp only [pstep, hj, hx, if_false, Bool.false_eq_true]
        exact ⟨hepc, hwpc, hjob⟩
  case callSwitchRadius r =>
    cases hj : s.job with
    | none => simpa [pstep, hj] using ⟨hepc, hwpc, hjob⟩
    | some j =>
      cases hsw : switch_radius_job j r with
      | error e => simp only [pstep, hj, hsw]; exact ⟨hepc, hwpc, hjob⟩
      | ok p =>
        exact absurd hsw (switch_radius_job_noReady j r (hjob j hj).2 p)
  case callSwitchTheme t tok rok =>
    cases hj : s.job with
    | none => simpa [pstep, hj] using ⟨hepc, hwpc, hjob⟩
    | some j =>
      simp only [pstep, hj, switch_theme_job_noReady j t tok rok (hjob j hj).2]
      refine ⟨hepc, hwpc, ?_⟩
      intro j1 hj1
      cases hj1
      exact hjob j hj
  case callToggle d rok =>
    cases hj : s.job with
    | none => simpa [pstep, hj] using ⟨hepc, hwpc, hjob⟩
    | some j =>
      simp only [pstep, hj, toggle_features_job_noReady j d rok (hjob j hj).2]
      refine ⟨hepc, hwpc, ?_⟩
      intro j1 hj1
      cases hj1
      exact hjob j hj
  case execStart loc =>
    simp only [pstep, hepc]
    exact ⟨hepc, hwpc, hjob⟩
  case execFetch dn res =>
    simp only [pstep, hepc]
    exact ⟨hepc, hwpc, hjob⟩
  case execWP dn w p =>
    simp only [pstep, hepc]
    exact ⟨hepc, hwpc, hjob⟩
  case execRender dn ok =>
    simp only [pstep, hepc]
    exact ⟨hepc, hwpc, hjob⟩
  case widenStart =>
    simp only [pstep, hwpc]
    exact ⟨hepc, hwpc, hjob⟩
  case widenFetch res =>
    simp only [pstep, hwpc]
    exact ⟨hepc, hwpc, hjob⟩
  case widenWater w =>
    simp only [pstep, hwpc]
    exact ⟨hepc, hwpc, hjob⟩
  case widenParks p =>
    simp only [pstep, hwpc]
    exact ⟨hepc, hwpc, hjob⟩
  case widenRender ok =>
    simp only [pstep, hwpc]
    exact ⟨hepc, hwpc, hjob⟩

theorem cancelFrozen_run (req : Req) (l : List PInput) (s : PState)
    (h : cancelFrozen s) : cancelFrozen (prunFrom req s l) := by
  induction l generalizing s with
  | nil => exact h
  | cons i t ih => exact ih (pstep req i s) (cancelFrozen_step req i s h)

/-- Claim C3 counterexample: the job is cancelled while the street fetch
is awaited (executor suspended at the fetch polling loop), yet when the
fetch, the water/parks fetches and the render all complete before the
next cancellation check runs, the executor proceeds: the job ends with
status `complete` — overwriting `cancelled` — and its initial slot
transitions to `ready` after the cancellation. -/
theorem cancel_midfetch_overwritten_by_complete :
    ((prun req0 [PInput.execStart (some c0), PInput.execFetch false none,
        PInput.cancel]).job.map Job.status = some JStatus.cancelled) ∧
    ((prun req0 [PInput.execStart (some c0), PInput.execFetch false none,
        PInput.cancel]).epc = EPc.fetchPoll c0 0) ∧
    ((prun req0 [PInput.execStart (some c0), PInput.execFetch false none,
        PInput.cancel, PInput.execFetch true (some g0),
        PInput.execWP true none none,
        PInput.execRender true true]).cancelled = true) ∧
    ((prun req0 [PInput.execStart (some c0), PInput.execFetch false none,
        PInput.cancel, PInput.execFetch true (some g0),
        PInput.execWP true none none,
        PInput.execRender true true]).job.map Job.status
      = some JStatus.complete) ∧
    ((prun req0 [PInput.execStart (some c0), PInput.execFetch false none,
        PInput.cancel, PInput.execFetch true (some g0),
        PInput.execWP true none none,
        PInput.execRender true true]).job.map
          (fun j => (lookupR j.radiuses INITIAL_RADIUS).map RadiusData.status)
      = some (some SlotStatus.ready)) :=
  ⟨rfl, rfl, rfl, rfl, rfl⟩

/-- Claim C3 amended: `cancel` marks the job `cancelled` immediately (in
the same step, not merely within one suspension interval); and if the
executor, suspended in the fetch polling loop with the widen task not yet
spawned, performs one more poll while the fetch is still pending, it
observes the flag and returns: from then on, under every further input
sequence, the job (while it exists) stays `cancelled` and no radius slot
is ever `ready`. But if the outstanding fetch and each later stage
complete before the corresponding loop re-checks the flag, the executor
instead finishes the pipeline and overwrites the status with `complete`
(the counterexample trace). -/
theorem cancel_midfetch_frozen_when_checked (req : Req) :
    (∀ (s : PState) (j : Job), s.job = some j →
      (pstep req PInput.cancel s).job.map Job.status
        = some JStatus.cancelled) ∧
    ∀ (s : PState) (c : Rat × Rat) (t0 : Rat) (res : Option Graph),
      s.epc = EPc.fetchPoll c t0 → s.wpc = WPc.notSpawned →
      s.cancelled = true →
      (∀ j, s.job = some j → j.status = JStatus.cancelled ∧ noReadySlot j) →
      ∀ (l : List PInput) (j' : Job),
        (prunFrom req (pstep req (PInput.execFetch false res) s) l).job
          = some j' →
        j'.status = JStatus.cancelled ∧ noReadySlot j' := by
  constructor
  · intro s j hj
    simp [pstep, hj]
  · intro s c t0 res hepc hwpc hcanc hjob l j' hj'
    have h1 : cancelFrozen (pstep req (PInput.execFetch false res) s) := by
      simp only [pstep, hepc, hcanc, Bool.false_eq_true, if_false, if_true]
      exact ⟨rfl, hwpc, hjob⟩
    exact (cancelFrozen_run req l _ h1).2.2 j' hj'

/-- Witness for C3 amended: the concrete cancelled-mid-fetch state with a
still-pending fetch; after the executor's next poll every later input
leaves the job cancelled with no ready slot. -/
theorem cancel_midfetch_frozen_when_checked_witness :
    ((pstep req0 PInput.cancel completedState).job.map Job.status
      = some JStatus.cancelled) ∧
    ∀ j', (prunFrom req0
        (pstep req0 (PInput.execFetch false none)
          (prun req0 [PInput.execStart (some c0), PInput.execFetch false none,
            PInput.cancel]))
        [PInput.execFetch true (some g0), PInput.execWP true none none,
         PInput.execRender true true]).job = some j' →
      j'.status = JStatus.cancelled ∧ noReadySlot j' := by
  constructor
  · exact (cancel_midfetch_frozen_when_checked req0).1 completedState jobC rfl
  · intro j' hj'
    refine (cancel_midfetch_frozen_when_checked req0).2
      (prun req0 [PInput.execStart (some c0), PInput.execFetch false none,
        PInput.cancel]) c0 0 none rfl rfl rfl ?_ _ j' hj'
    intro j hj
    cases hj
    constructor
    · rfl
    · intro p hp hready
      rcases List.mem_cons.mp hp with rfl | hp2
      · exact SlotStatus.noConfusion hready
      · rcases List.mem_cons.mp hp2 with rfl | hp3
        · exact SlotStatus.noConfusion hready
        · rcases List.mem_cons.mp hp3 with rfl | hp4
          · exact SlotStatus.noConfusion hready
          · rcases List.mem_cons.mp hp4 with rfl | hp5
            · exact SlotStatus.noConfusion hready
            · cases hp5

theorem toggle_percent (j : Job) (d : FeatureDelta) (ok : Bool) :
    (toggle_features_job j d ok).percent = j.percent := by
  unfold toggle_features_job
  cases hl : lookupR j.radiuses (j.current_radius.getD INITIAL_RADIUS) with
  | none => simp [hl]
  | some rd =>
    simp only [hl]
    by_cases hg : rd.status ≠ SlotStatus.ready ∨ rd.graph_all = none
    · simp [hg]
    · simp only [if_neg hg]
      cases ok <;> simp

theorem theme_percent (j : Job) (t : String) (tok ok : Bool) :
    (switch_theme_job j t tok ok).percent = j.percent := by
  unfold switch_theme_job
  cases hl : lookupR j.radiuses (j.current_radius.getD INITIAL_RADIUS) with
  | none => simp [hl]
  | some rd =>
    simp only [hl]
    by_cases hg : rd.status ≠ SlotStatus.ready ∨ rd.graph_all = none
    · simp [hg]
    · simp only [if_neg hg]
      cases tok <;> cases ok <;> simp

theorem toggle_status (j : Job) (d : FeatureDelta) (ok : Bool) :
    (toggle_features_job j d ok).status = j.status := by
  unfold toggle_features_job
  cases hl : lookupR j.radiuses (j.current_radius.getD INITIAL_RADIUS) with
  | none => simp [hl]
  | some rd =>
    simp only [hl]
    by_cases hg : rd.status ≠ SlotStatus.ready ∨ rd.graph_all = none
    · simp [hg]
    · simp only [if_neg hg]
      cases ok <;> simp

theorem theme_status (j : Job) (t : String) (tok ok : Bool) :
    (switch_theme_job j t tok ok).status = j.status := by
  unfold switch_theme_job
  cases hl : lookupR j.radiuses (j.current_radius.getD INITIAL_RADIUS) with
  | none => simp [hl]
  | some rd =>
    simp only [hl]
    by_cases hg : rd.status ≠ SlotStatus.ready ∨ rd.graph_all = none
    · simp [hg]
    · simp only [if_neg hg]
      cases tok <;> cases ok <;> simp

theorem percentInv_job_congr (s s' : PState) (hepc : s'.epc = s.epc)
    (hnow : s'.now = s.now)
    (hp : ∀ j', s'.job = some j' → ∃ j, s.job = some j ∧ j'.percent = j.percent)
    (h : percentInv s) : percentInv s' := by
  unfold percentInv at h ⊢
  rw [hepc, hnow]
  cases he : s.epc with
  | created =>
    rw [he] at h
    intro j' hj'
    obtain ⟨j, hj, hpp⟩ := hp j' hj'
    rw [hpp]
    exact h j hj
  | fetchPoll c t0 =>
    rw [he] at h
    refine ⟨h.1, ?_⟩
    intro j' hj'
    obtain ⟨j, hj, hpp⟩ := hp j' hj'
    rw [hpp]
    exact h.2 j hj
  | wpPoll c g t0 =>
    rw [he] at h
    refine ⟨h.1, ?_⟩
    intro j' hj'
    obtain ⟨j, hj, hpp⟩ := hp j' hj'
    rw [hpp]
    exact h.2 j hj
  | renderPoll c t0 =>
    rw [he] at h
    refine ⟨h.1, ?_⟩
    intro j' hj'
    obtain ⟨j, hj, hpp⟩ := hp j' hj'
    rw [hpp]
    exact h.2 j hj
  | finished => trivial

theorem percentInv_step (req : Req) (i : PInput) (s : PState)
    (h : percentInv s) : percentInv (pstep req i s) := by
  cases i
  case tick d =>
    by_cases hd : (0 : Rat) ≤ d
    · simp only [pstep, hd, if_true]
      unfold percentInv at h ⊢
      dsimp only
      cases he : s.epc with
      | created => rw [he] at h; exact h
      | fetchPoll c t0 =>
        rw [he] at h
        refine ⟨by linarith [h.1], ?_⟩
        intro j hj
        refine le_trans (h.2 j hj) (fetchProgress_mono (by linarith))
      | wpPoll c g t0 =>
        rw [he] at h
        refine ⟨by linarith [h.1], ?_⟩
        intro j hj
        refine le_trans (h.2 j hj) (wpProgress_mono (by linarith))
      | renderPoll c t0 =>
        rw [he] at h
        refine ⟨by linarith [h.1], ?_⟩
        intro j hj
        refine le_trans (h.2 j hj) (renderProgress_mono (by linarith))
      | finished => trivial
    · simp only [pstep, hd, if_false, Bool.false_eq_true]
      exact h
  case cancel =>
    refine percentInv_job_congr s _ ?_ ?_ ?_ h
    · cases hj : s.job <;> simp [pstep, hj]
    · cases hj : s.job <;> simp [pstep, hj]
    · intro j' hj'
      cases hj : s.job with
      | none => simp [pstep, hj] at hj'
      | some j =>
        simp only [pstep, hj, Option.some.injEq] at hj'
        subst hj'
        exact ⟨j, rfl, rfl⟩
  case sweep =>
    refine percentInv_job_congr s _ ?_ ?_ ?_ h
    · cases hj : s.job with
      | none => simp [pstep, hj]
      | some j => by_cases hx : expired j s.now <;> simp [pstep, hj, hx]
    · cases hj : s.job with
      | none => simp [pstep, hj]
      | some j => by_cases hx : expired j s.now <;> simp [pstep, hj, hx]
    · intro j' hj'
      cases hj : s.job with
      | none => simp [pstep, hj] at hj'
      | some j =>
        by_cases hx : expired j s.now
        · simp [pstep, hj, hx] at hj'
        · simp only [pstep, hj, hx, if_false, Bool.false_eq_true,
            Option.some.injEq] at hj'
          subst hj'
          exact ⟨j, rfl, rfl⟩
  case callSwitchRadius r =>
    refine percentInv_job_congr s _ ?_ ?_ ?_ h
    · cases hj : s.job with
      | none => simp [pstep, hj]
      | some j =>
        cases hsw : switch_radius_job j r with
        | error e => simp [pstep, hj, hsw]
        | ok p => obtain ⟨j1, u⟩ := p; simp [pstep, hj, hsw]
    · cases hj : s.job with
      | none => simp [pstep, hj]
      | some j =>
        cases hsw : switch_radius_job j r with
        | error e => simp [pstep, hj, hsw]
        | ok p => obtain ⟨j1, u⟩ := p; simp [pstep, hj, hsw]
    · intro j' hj'
      cases hj : s.job with
      | none => simp [pstep, hj] at hj'
      | some j =>
        cases hsw : switch_radius_job j r with
        | error e =>
          simp only [pstep, hj, hsw, Option.some.injEq] at hj'
          subst hj'
          exact ⟨j, rfl, rfl⟩
        | ok p =>
          obtain ⟨j1, u⟩ := p
          simp only [pstep, hj, hsw, Option.some.injEq] at hj'
          subst hj'
          exact ⟨j, rfl, (switch_radius_job_ok j r j1 u hsw).2.2.1⟩
  case callSwitchTheme t tok rok =>
    refine percentInv_job_congr s _ ?_ ?_ ?_ h
    · cases hj : s.job <;> simp [pstep, hj]
    · cases hj : s.job <;> simp [pstep, hj]
    · intro j' hj'
      cases hj : s.job with
      | none => simp [pstep, hj] at hj'
      | some j =>
        simp only [pstep, hj, Option.some.injEq] at hj'
        subst hj'
        exact ⟨j, rfl, theme_percent j t tok rok⟩
  case callToggle d rok =>
    refine percentInv_job_congr s _ ?_ ?_ ?_ h
    · cases hj : s.job <;> simp [pstep, hj]
    · cases hj : s.job <;> simp [pstep, hj]
    · intro j' hj'
      cases hj : s.job with
      | none => simp [pstep, hj] at hj'
      | some j =>
        simp only [pstep, hj, Option.some.injEq] at hj'
        subst hj'
        exact ⟨j, rfl, toggle_percent j d rok⟩
  case widenStart =>
    refine percentInv_job_congr s _ ?_ ?_ ?_ h
    · cases hwpc : s.wpc <;> cases hj : s.job <;>
        cases hcanc : s.cancelled <;> simp [pstep, hwpc, hj, hcanc]
    · cases hwpc : s.wpc <;> cases hj : s.job <;>
        cases hcanc : s.cancelled <;> simp [pstep, hwpc, hj, hcanc]
    · intro j' hj'
      cases hwpc : s.wpc <;>
        first
          | (simp only [pstep, hwpc] at hj'; exact ⟨j', hj', rfl⟩)
          | skip
      cases hj : s.job with
      | none => simp [pstep, hwpc, hj] at hj'
      | some j =>
        cases hcanc : s.cancelled with
        | true =>
          simp only [pstep, hwpc, hj, hcanc, if_true, Option.some.injEq] at hj'
          subst hj'
          exact ⟨j, rfl, rfl⟩
        | false =>
          simp only [pstep, hwpc, hj, hcanc, Bool.false_eq_true, if_false,
            Option.some.injEq] at hj'
          subst hj'
          exact ⟨j, rfl, rfl⟩
  case widenFetch res =>
    refine percentInv_job_congr s _ ?_ ?_ ?_ h
    · cases hwpc : s.wpc <;> cases res <;> cases hj : s.job <;>
        simp [pstep, hwpc, hj]
    · cases hwpc : s.wpc <;> cases res <;> cases hj : s.job <;>
        simp [pstep, hwpc, hj]
    · intro j' hj'
      cases hwpc : s.wpc <;>
        first
          | (simp only [pstep, hwpc] at hj'; exact ⟨j', hj', rfl⟩)
          | skip
      cases res with
      | some g =>
        simp only [pstep, hwpc] at hj'
        exact ⟨j', hj', rfl⟩
      | none =>
        cases hj : s.job with
        | none => simp [pstep, hwpc, hj] at hj'
        | some j =>
          simp only [pstep, hwpc, hj, Option.some.injEq] at hj'
          subst hj'
          exact ⟨j, rfl, rfl⟩
  case widenWater w =>
    refine percentInv_job_congr s _ ?_ ?_ ?_ h
    · cases hwpc : s.wpc <;> simp [pstep, hwpc]
    · cases hwpc : s.wpc <;> simp [pstep, hwpc]
    · intro j' hj'
      cases hwpc : s.wpc <;> simp only [pstep, hwpc] at hj' <;>
        exact ⟨j', hj', rfl⟩
  case widenParks p =>
    refine percentInv_job_congr s _ ?_ ?_ ?_ h
    · cases hwpc : s.wpc <;> cases hj : s.job <;> simp [pstep, hwpc, hj]
    · cases hwpc : s.wpc <;> cases hj : s.job <;> simp [pstep, hwpc, hj]
    · intro j' hj'
      cases hwpc : s.wpc <;>
        first
          | (simp only [pstep, hwpc] at hj'; exact ⟨j', hj', rfl⟩)
          | skip
      cases hj : s.job with
      | none => simp [pstep, hwpc, hj] at hj'
      | some j =>
        simp only [pstep, hwpc, hj, Option.some.injEq] at hj'
        subst hj'
        exact ⟨j, rfl, rfl⟩
  case widenRender ok =>
    refine percentInv_job_congr s _ ?_ ?_ ?_ h
    · cases hwpc : s.wpc <;> cases ok <;> cases hj : s.job <;>
        simp [pstep, hwpc, hj]
    · cases hwpc : s.wpc <;> cases ok <;> cases hj : s.job <;>
        simp [pstep, hwpc, hj]
    · intro j' hj'
      cases hwpc : s.wpc <;>
        first
          | (simp only [pstep, hwpc] at hj'; exact ⟨j', hj', rfl⟩)
          | skip
      cases ok with
      | false =>
        simp only [pstep, hwpc, Bool.false_eq_true, if_false] at hj'
        exact ⟨j', hj', rfl⟩
      | true =>
        cases hj : s.job with
        | none => simp [pstep, hwpc, hj] at hj'
        | some j =>
          simp only [pstep, hwpc, hj, if_true, Option.some.injEq] at hj'
          subst hj'
          exact ⟨j, rfl, rfl⟩
  case execStart loc =>
    cases hepc : s.epc
    case fetchPoll c t0 =>
      simp only [pstep, hepc]
      exact h
    case wpPoll c g t0 =>
      simp only [pstep, hepc]
      exact h
    case renderPoll c t0 =>
      simp only [pstep, hepc]
      exact h
    case finished =>
      simp only [pstep, hepc]
      exact h
    case created =>
      cases hj : s.job with
      | none =>
        simp only [pstep, hepc, hj]
        unfold percentInv
        trivial
      | some j =>
        cases loc with
        | none =>
          simp only [pstep, hepc, hj]
          unfold percentInv
          trivial
        | some c =>
          simp only [pstep, hepc, hj]
          unfold percentInv
          dsimp only
          refine ⟨le_refl _, ?_⟩
          intro j1 hj1
          simp only [Option.some.injEq] at hj1
          subst hj1
          simpa using fetchProgress_ge (le_refl (0 : Rat))
  case execFetch dn res =>
    cases hepc : s.epc
    case created => simp only [pstep, hepc]; exact h
    case wpPoll c g t0 => simp only [pstep, hepc]; exact h
    case renderPoll c t0 => simp only [pstep, hepc]; exact h
    case finished => simp only [pstep, hepc]; exact h
    case fetchPoll c t0 =>
      have hb := h
      unfold percentInv at hb
      rw [hepc] at hb
      cases dn with
      | true =>
        cases hj : s.job with
        | none =>
          simp only [pstep, hepc, hj, if_true]
          unfold percentInv
          trivial
        | some j =>
          cases res with
          | none =>
            simp only [pstep, hepc, hj, if_true]
            unfold percentInv
            trivial
          | some g =>
            simp only [pstep, hepc, hj, if_true]
            unfold percentInv
            dsimp only
            refine ⟨le_refl _, ?_⟩
            intro j1 hj1
            simp only [Option.some.injEq] at hj1
            subst hj1
            simpa using wpProgress_ge (le_refl (0 : Rat))
      | false =>
        cases hcanc : s.cancelled with
        | true =>
          simp only [pstep, hepc, hcanc, Bool.false_eq_true, if_false, if_true]
          unfold percentInv
          trivial
        | false =>
          cases hj : s.job with
          | none =>
            simp only [pstep, hepc, hcanc, hj, Bool.false_eq_true, if_false]
            unfold percentInv
            trivial
          | some j =>
            simp only [pstep, hepc, hcanc, hj, Bool.false_eq_true, if_false]
            unfold percentInv
            dsimp only
            refine ⟨hb.1, ?_⟩
            intro j1 hj1
            simp only [Option.some.injEq] at hj1
            subst hj1
            exact le_refl _
  case execWP dn w p =>
    cases hepc : s.epc
    case created => simp only [pstep, hepc]; exact h
    case fetchPoll c t0 => simp only [pstep, hepc]; exact h
    case renderPoll c t0 => simp only [pstep, hepc]; exact h
    case finished => simp only [pstep, hepc]; exact h
    case wpPoll c g t0 =>
      have hb := h
      unfold percentInv at hb
      rw [hepc] at hb
      cases dn with
      | true =>
        cases hj : s.job with
        | none =>
          simp only [pstep, hepc, hj, if_true]
          unfold percentInv
          trivial
        | some j =>
          simp only [pstep, hepc, hj, if_true]
          unfold percentInv
          dsimp only
          refine ⟨le_refl _, ?_⟩
          intro j1 hj1
          simp only [Option.some.injEq] at hj1
          subst hj1
          simpa using renderProgress_ge (le_refl (0 : Rat))
      | false =>
        cases hcanc : s.cancelled with
        | true =>
          simp only [pstep, hepc, hcanc, Bool.false_eq_true, if_false, if_true]
          unfold percentInv
          trivial
        | false =>
          cases hj : s.job with
          | none =>
            simp only [pstep, hepc, hcanc, hj, Bool.false_eq_true, if_false]
            unfold percentInv
            trivial
          | some j =>
            simp only [pstep, hepc, hcanc, hj, Bool.false_eq_true, if_false]
            unfold percentInv
            dsimp only
            refine ⟨hb.1, ?_⟩
            intro j1 hj1
            simp only [Option.some.injEq] at hj1
            subst hj1
            exact le_refl _
  case execRender dn ok =>
    cases hepc : s.epc
    case created => simp only [pstep, hepc]; exact h
    case fetchPoll c t0 => simp only [pstep, hepc]; exact h
    case wpPoll c g t0 => simp only [pstep, hepc]; exact h
    case finished => simp only [pstep, hepc]; exact h
    case renderPoll c t0 =>
      have hb := h
      unfold percentInv at hb
      rw [hepc] at hb
      cases dn with
      | true =>
        cases ok <;> cases hj : s.job <;> simp only [pstep, hepc, hj, if_true,
          Bool.false_eq_true, if_false] <;> unfold percentInv <;> trivial
      | false =>
        cases hcanc : s.cancelled with
        | true =>
          simp only [pstep, hepc, hcanc, Bool.false_eq_true, if_false, if_true]
          unfold percentInv
          trivial
        | false =>
          cases hj : s.job with
          | none =>
            simp only [pstep, hepc, hcanc, hj, Bool.false_eq_true, if_false]
            unfold percentInv
            trivial
          | some j =>
            simp only [pstep, hepc, hcanc, hj, Bool.false_eq_true, if_false]
            unfold percentInv
            dsimp only
            refine ⟨hb.1, ?_⟩
            intro j1 hj1
            simp only [Option.some.injEq] at hj1
            subst hj1
            exact le_refl _

theorem percentInv_init (req : Req) : percentInv (pinit req) := by
  unfold percentInv pinit
  intro j hj
  simp only [Option.some.injEq] at hj
  subst hj
  rfl

theorem percentInv_prun (req : Req) (l : List PInput) :
    percentInv (prun req l) := by
  have : ∀ s, percentInv s → percentInv (prunFrom req s l) := by
    induction l with
    | nil => exact fun s hs => hs
    | cons i t ih => exact fun s hs => ih (pstep req i s) (percentInv_step req i s hs)
  exact this (pinit req) (percentInv_init req)

theorem pstep_percent_mono (req : Req) (i : PInput) (s : PState)
    (hinv : percentInv s) (j j' : Job) (hj : s.job = some j)
    (hj' : (pstep req i s).job = some j') :
    j.percent ≤ j'.percent ∧
      (j'.percent = 100 → j.percent = 100 ∨ j'.status = JStatus.complete) := by
  cases i
  case tick d =>
    by_cases hd : (0 : Rat) ≤ d <;>
      simp only [pstep, hd, if_true, if_false, Bool.false_eq_true, hj,
        Option.some.injEq] at hj' <;>
      (subst hj'; exact ⟨le_refl _, fun h100 => Or.inl h100⟩)
  case cancel =>
    simp only [pstep, hj, Option.some.injEq] at hj'
    subst hj'
    exact ⟨le_refl _, fun h100 => Or.inl h100⟩
  case sweep =>
    by_cases hx : expired j s.now
    · simp [pstep, hj, hx] at hj'
    · simp only [pstep, hj, hx, if_false, Bool.false_eq_true,
        Option.some.injEq] at hj'
      subst hj'
      exact ⟨le_refl _, fun h100 => Or.inl h100⟩
  case callSwitchRadius r =>
    cases hsw : switch_radius_job j r with
    | error e =>
      simp only [pstep, hj, hsw, Option.some.injEq] at hj'
      subst hj'
      exact ⟨le_refl _, fun h100 => Or.inl h100⟩
    | ok p =>
      obtain ⟨j1, u⟩ := p
      simp only [pstep, hj, hsw, Option.some.injEq] at hj'
      subst hj'
      have hpp := (switch_radius_job_ok j r j1 u hsw).2.2.1
      exact ⟨le_of_eq hpp.symm, fun h100 => Or.inl (hpp ▸ h100)⟩
  case callSwitchTheme t tok rok =>
    simp only [pstep, hj, Option.some.injEq] at hj'
    subst hj'
    have hpp := theme_percent j t tok rok
    exact ⟨le_of_eq hpp.symm, fun h100 => Or.inl (hpp ▸ h100)⟩
  case callToggle d rok =>
    simp only [pstep, hj, Option.some.injEq] at hj'
    subst hj'
    have hpp := toggle_percent j d rok
    exact ⟨le_of_eq hpp.symm, fun h100 => Or.inl (hpp ▸ h100)⟩
  case widenStart =>
    cases hwpc : s.wpc <;>
      simp only [pstep, hwpc, hj, Option.some.injEq] at hj' <;>
      try (subst hj'; exact ⟨le_refl _, fun h100 => Or.inl h100⟩)
    case spawned c =>
      cases hcanc : s.cancelled with
      | true =>
        simp only [hcanc, if_true, hj, Option.some.injEq] at hj'
        subst hj'
        exact ⟨le_refl _, fun h100 => Or.inl h100⟩
      | false =>
        simp only [hcanc, Bool.false_eq_true, if_false, hj,
          Option.some.injEq] at hj'
        subst hj'
        exact ⟨le_refl _, fun h100 => Or.inl h100⟩
  case widenFetch res =>
    cases hwpc : s.wpc <;> cases res <;>
      simp only [pstep, hwpc, hj, Option.some.injEq] at hj' <;>
      (subst hj'; exact ⟨le_refl _, fun h100 => Or.inl h100⟩)
  case widenWater w =>
    cases hwpc : s.wpc <;>
      simp only [pstep, hwpc, hj, Option.some.injEq] at hj' <;>
      (subst hj'; exact ⟨le_refl _, fun h100 => Or.inl h100⟩)
  case widenParks p =>
    cases hwpc : s.wpc <;>
      simp only [pstep, hwpc, hj, Option.some.injEq] at hj' <;>
      (subst hj'; exact ⟨le_refl _, fun h100 => Or.inl h100⟩)
  case widenRender ok =>
    cases hwpc : s.wpc <;> cases ok <;>
      simp only [pstep, hwpc, hj, if_true, if_false, Bool.false_eq_true,
        Option.some.injEq] at hj' <;>
      (subst hj'; exact ⟨le_refl _, fun h100 => Or.inl h100⟩)
  case execStart loc =>
    cases hepc : s.epc <;>
      [skip;
       (simp only [pstep, hepc, hj, Option.some.injEq] at hj';
        subst hj'; exact ⟨le_refl _, fun h100 => Or.inl h100⟩);
       (simp only [pstep, hepc, hj, Option.some.injEq] at hj';
        subst hj'; exact ⟨le_refl _, fun h100 => Or.inl h100⟩);
       (simp only [pstep, hepc, hj, Option.some.injEq] at hj';
        subst hj'; exact ⟨le_refl _, fun h100 => Or.inl h100⟩);
       (simp only [pstep, hepc, hj, Option.some.injEq] at hj';
        subst hj'; exact ⟨le_refl _, fun h100 => Or.inl h100⟩)]
    have hb : j.percent = 0 := by
      have := hinv
      unfold percentInv at this
      rw [hepc] at this
      exact this j hj
    cases loc with
    | none =>
      simp only [pstep, hepc, hj, Option.some.injEq] at hj'
      subst hj'
      refine ⟨?_, ?_⟩
      · show j.percent ≤ 5
        omega
      · intro h100
        have h5 : (5 : Nat) = 100 := h100
        omega
    | some c =>
      simp only [pstep, hepc, hj, Option.some.injEq] at hj'
      subst hj'
      refine ⟨?_, ?_⟩
      · show j.percent ≤ 15
        omega
      · intro h100
        have h15 : (15 : Nat) = 100 := h100
        omega
  case execFetch dn res =>
    cases hepc : s.epc <;>
      [(simp only [pstep, hepc, hj, Option.some.injEq] at hj';
        subst hj'; exact ⟨le_refl _, fun h100 => Or.inl h100⟩);
       skip;
       (simp only [pstep, hepc, hj, Option.some.injEq] at hj';
        subst hj'; exact ⟨le_refl _, fun h100 => Or.inl h100⟩);
       (simp only [pstep, hepc, hj, Option.some.injEq] at hj';
        subst hj'; exact ⟨le_refl _, fun h100 => Or.inl h100⟩);
       (simp only [pstep, hepc, hj, Option.some.injEq] at hj';
        subst hj'; exact ⟨le_refl _, fun h100 => Or.inl h100⟩)]
    rename_i c t0
    have hb : j.percent ≤ fetchProgress (s.now - t0) := by
      have := hinv
      unfold percentInv at this
      rw [hepc] at this
      exact this.2 j hj
    have hle := fetchProgress_le (s.now - t0)
    cases dn with
    | true =>
      cases res with
      | none =>
        simp only [pstep, hepc, hj, if_true, Option.some.injEq] at hj'
        subst hj'
        exact ⟨le_refl _, fun h100 => Or.inl h100⟩
      | some g =>
        simp only [pstep, hepc, hj, if_true, Option.some.injEq] at hj'
        subst hj'
        refine ⟨?_, ?_⟩
        · show j.percent ≤ 45
          omega
        · intro h100
          have h45 : (45 : Nat) = 100 := h100
          omega
    | false =>
      cases hcanc : s.cancelled with
      | true =>
        simp only [pstep, hepc, hj, hcanc, Bool.false_eq_true, if_false,
          if_true, Option.some.injEq] at hj'
        subst hj'
        exact ⟨le_refl _, fun h100 => Or.inl h100⟩
      | false =>
        simp only [pstep, hepc, hj, hcanc, Bool.false_eq_true, if_false,
          Option.some.injEq] at hj'
        subst hj'
        refine ⟨hb, ?_⟩
        intro h100
        have h100n : fetchProgress (s.now - t0) = 100 := h100
        omega
  case execWP dn w p =>
    cases hepc : s.epc <;>
      [(simp only [pstep, hepc, hj, Option.some.injEq] at hj';
        subst hj'; exact ⟨le_refl _, fun h100 => Or.inl h100⟩);
       (simp only [pstep, hepc, hj, Option.some.injEq] at hj';
        subst hj'; exact ⟨le_refl _, fun h100 => Or.inl h100⟩);
       skip;
       (simp only [pstep, hepc, hj, Option.some.injEq] at hj';
        subst hj'; exact ⟨le_refl _, fun h100 => Or.inl h100⟩);
       (simp only [pstep, hepc, hj, Option.some.injEq] at hj';
        subst hj'; exact ⟨le_refl _, fun h100 => Or.inl h100⟩)]
    rename_i c g t0
    have hb : j.percent ≤ wpProgress (s.now - t0) := by
      have := hinv
      unfold percentInv at this
      rw [hepc] at this
      exact this.2 j hj
    have hle := wpProgress_le (s.now - t0)
    cases dn with
    | true =>
      simp only [pstep, hepc, hj, if_true, Option.some.injEq] at hj'
      subst hj'
      refine ⟨?_, ?_⟩
      · show j.percent ≤ 75
        omega
      · intro h100
        have h75 : (75 : Nat) = 100 := h100
        omega
    | false =>
      cases hcanc : s.cancelled with
      | true =>
        simp only [pstep, hepc, hj, hcanc, Bool.false_eq_true, if_false,
          if_true, Option.some.injEq] at hj'
        subst hj'
        exact ⟨le_refl _, fun h100 => Or.inl h100⟩
      | false =>
        simp only [pstep, hepc, hj, hcanc, Bool.false_eq_true, if_false,
          Option.some.injEq] at hj'
        subst hj'
        refine ⟨hb, ?_⟩
        intro h100
        have h100n : wpProgress (s.now - t0) = 100 := h100
        omega
  case execRender dn ok =>
    cases hepc : s.epc <;>
      [(simp only [pstep, hepc, hj, Option.some.injEq] at hj';
        subst hj'; exact ⟨le_refl _, fun h100 => Or.inl h100⟩);
       (simp only [pstep, hepc, hj, Option.some.injEq] at hj';
        subst hj'; exact ⟨le_refl _, fun h100 => Or.inl h100⟩);
       (simp only [pstep, hepc, hj, Option.some.injEq] at hj';
        subst hj'; exact ⟨le_refl _, fun h100 => Or.inl h100⟩);
       skip;
       (simp only [pstep, hepc, hj, Option.some.injEq] at hj';
        subst hj'; exact ⟨le_refl _, fun h100 => Or.inl h100⟩)]
    rename_i c t0
    have hb : j.percent ≤ renderProgress (s.now - t0) := by
      have := hinv
      unfold percentInv at this
      rw [hepc] at this
      exact this.2 j hj
    have hle := renderProgress_le (s.now - t0)
    cases dn with
    | true =>
      cases ok with
      | true =>
        simp only [pstep, hepc, hj, if_true, Option.some.injEq] at hj'
        subst hj'
        refine ⟨?_, fun _ => Or.inr rfl⟩
        show j.percent ≤ 100
        omega
      | false =>
        simp only [pstep, hepc, hj, if_true, Bool.false_eq_true, if_false,
          Option.some.injEq] at hj'
        subst hj'
        exact ⟨le_refl _, fun h100 => Or.inl h100⟩
    | false =>
      cases hcanc : s.cancelled with
      | true =>
        simp only [pstep, hepc, hj, hcanc, Bool.false_eq_true, if_false,
          if_true, Option.some.injEq] at hj'
        subst hj'
        exact ⟨le_refl _, fun h100 => Or.inl h100⟩
      | false =>
        simp only [pstep, hepc, hj, hcanc, Bool.false_eq_true, if_false,
          Option.some.injEq] at hj'
        subst hj'
        refine ⟨hb, ?_⟩
        intro h100
        have h100n : renderProgress (s.now - t0) = 100 := h100
        omega

theorem fPercentInv_step (req : Req) (i : FInput) (s : FState)
    (h : fPercentInv s) : fPercentInv (fstep req i s) := by
  cases i
  case tick d =>
    by_cases hd : (0 : Rat) ≤ d <;>
      simp only [fstep, hd, if_true, if_false, Bool.false_eq_true] <;>
      exact h
  case cancel =>
    cases hj : s.job with
    | none => simpa [fstep, hj] using h
    | some j =>
      unfold fPercentInv at h ⊢
      simp only [fstep, hj]
      cases hpc : s.fpc <;> rw [hpc] at h <;> dsimp only <;>
        try (intro j1 hj1; simp only [Option.some.injEq] at hj1; subst hj1;
             exact h j hj)
  case sweep =>
    cases hj : s.job with
    | none => simpa [fstep, hj] using h
    | some j =>
      by_cases hx : expired j s.now
      · unfold fPercentInv at h ⊢
        simp only [fstep, hj, hx, if_true]
        cases hpc : s.fpc <;> dsimp only <;>
          try (intro j1 hj1; exact absurd hj1 (by simp))
      · simp only [fstep, hj, hx, if_false, Bool.false_eq_true]
        exact h
  case fStart loc =>
    cases hpc : s.fpc <;>
      [skip;
       (simp only [fstep, hpc]; exact h);
       (simp only [fstep, hpc]; exact h);
       (simp only [fstep, hpc]; exact h);
       (simp only [fstep, hpc]; exact h)]
    cases hj : s.job with
    | none =>
      simp only [fstep, hpc, hj]
      unfold fPercentInv
      trivial
    | some j =>
      cases loc with
      | none =>
        simp only [fstep, hpc, hj]
        unfold fPercentInv
        trivial
      | some c =>
        simp only [fstep, hpc, hj]
        unfold fPercentInv
        dsimp only
        intro j1 hj1
        simp only [Option.some.injEq] at hj1
        subst hj1
        rfl
  case fFetchDone res =>
    cases hpc : s.fpc <;>
      [(simp only [fstep, hpc]; exact h);
       skip;
       (simp only [fstep, hpc]; exact h);
       (simp only [fstep, hpc]; exact h);
       (simp only [fstep, hpc]; exact h)]
    cases hj : s.job with
    | none =>
      simp only [fstep, hpc, hj]
      unfold fPercentInv
      trivial
    | some j =>
      cases res with
      | none =>
        simp only [fstep, hpc, hj]
        unfold fPercentInv
        trivial
      | some g =>
        simp only [fstep, hpc, hj]
        unfold fPercentInv
        dsimp only
        intro j1 hj1
        simp only [Option.some.injEq] at hj1
        subst hj1
        rfl
  case fFeatDone w p =>
    cases hpc : s.fpc <;>
      [(simp only [fstep, hpc]; exact h);
       (simp only [fstep, hpc]; exact h);
       skip;
       (simp only [fstep, hpc]; exact h);
       (simp only [fstep, hpc]; exact h)]
    cases hj : s.job with
    | none =>
      simp only [fstep, hpc, hj]
      unfold fPercentInv
      trivial
    | some j =>
      simp only [fstep, hpc, hj]
      unfold fPercentInv
      dsimp only
      intro j1 hj1
      simp only [Option.some.injEq] at hj1
      subst hj1
      rfl
  case fRenderDone ok =>
    cases hpc : s.fpc <;>
      [(simp only [fstep, hpc]; exact h);
       (simp only [fstep, hpc]; exact h);
       (simp only [fstep, hpc]; exact h);
       skip;
       (simp only [fstep, hpc]; exact h)]
    cases hj : s.job with
    | none =>
      simp only [fstep, hpc, hj]
      unfold fPercentInv
      trivial
    | some j =>
      cases ok <;> simp only [fstep, hpc, hj, if_true, Bool.false_eq_true,
        if_false] <;> unfold fPercentInv <;> trivial

theorem fPercentInv_frun (req : Req) (l : List FInput) :
    fPercentInv (frun req l) := by
  have hinit : fPercentInv (finit req) := by
    unfold fPercentInv finit
    intro j hj
    simp only [Option.some.injEq] at hj
    subst hj
    rfl
  have : ∀ s, fPercentInv s → fPercentInv (l.foldl (fun s i => fstep req i s) s) := by
    induction l with
    | nil => exact fun s hs => hs
    | cons i t ih => exact fun s hs => ih (fstep req i s) (fPercentInv_step req i s hs)
  exact this (finit req) hinit

theorem fstep_percent_mono (req : Req) (i : FInput) (s : FState)
    (hinv : fPercentInv s) (j j' : Job) (hj : s.job = some j)
    (hj' : (fstep req i s).job = some j') :
    j.percent ≤ j'.percent ∧
      (j'.percent = 100 → j.percent = 100 ∨ j'.status = JStatus.complete) := by
  cases i
  case tick d =>
    by_cases hd : (0 : Rat) ≤ d <;>
      simp only [fstep, hd, if_true, if_false, Bool.false_eq_true, hj,
        Option.some.injEq] at hj' <;>
      (subst hj'; exact ⟨le_refl _, fun h100 => Or.inl h100⟩)
  case cancel =>
    simp only [fstep, hj, Option.some.injEq] at hj'
    subst hj'
    exact ⟨le_refl _, fun h100 => Or.inl h100⟩
  case sweep =>
    by_cases hx : expired j s.now
    · simp [fstep, hj, hx] at hj'
    · simp only [fstep, hj, hx, if_false, Bool.false_eq_true,
        Option.some.injEq] at hj'
      subst hj'
      exact ⟨le_refl _, fun h100 => Or.inl h100⟩
  case fStart loc =>
    cases hpc : s.fpc <;>
      [skip;
       (simp only [fstep, hpc, hj, Option.some.injEq] at hj';
        subst hj'; exact ⟨le_refl _, fun h100 => Or.inl h100⟩);
       (simp only [fstep, hpc, hj, Option.some.injEq] at hj';
        subst hj'; exact ⟨le_refl _, fun h100 => Or.inl h100⟩);
       (simp only [fstep, hpc, hj, Option.some.injEq] at hj';
        subst hj'; exact ⟨le_refl _, fun h100 => Or.inl h100⟩);
       (simp only [fstep, hpc, hj, Option.some.injEq] at hj';
        subst hj'; exact ⟨le_refl _, fun h100 => Or.inl h100⟩)]
    have hb : j.percent = 0 := by
      have := hinv
      unfold fPercentInv at this
      rw [hpc] at this
      exact this j hj
    cases loc with
    | none =>
      simp only [fstep, hpc, hj, Option.some.injEq] at hj'
      subst hj'
      refine ⟨?_, ?_⟩
      · show j.percent ≤ 5
        omega
      · intro h100
        have h5 : (5 : Nat) = 100 := h100
        omega
    | some c =>
      simp only [fstep, hpc, hj, Option.some.injEq] at hj'
      subst hj'
      refine ⟨?_, ?_⟩
      · show j.percent ≤ 15
        omega
      · intro h100
        have h15 : (15 : Nat) = 100 := h100
        omega
  case fFetchDone res =>
    cases hpc : s.fpc <;>
      [(simp only [fstep, hpc, hj, Option.some.injEq] at hj';
        subst hj'; exact ⟨le_refl _, fun h100 => Or.inl h100⟩);
       skip;
       (simp only [fstep, hpc, hj, Option.some.injEq] at hj';
        subst hj'; exact ⟨le_refl _, fun h100 => Or.inl h100⟩);
       (simp only [fstep, hpc, hj, Option.some.injEq] at hj';
        subst hj'; exact ⟨le_refl _, fun h100 => Or.inl h100⟩);
       (simp only [fstep, hpc, hj, Option.some.injEq] at hj';
        subst hj'; exact ⟨le_refl _, fun h100 => Or.inl h100⟩)]
    have hb : j.percent = 15 := by
      have := hinv
      unfold fPercentInv at this
      rw [hpc] at this
      exact this j hj
    cases res with
    | none =>
      simp only [fstep, hpc, hj, Option.some.injEq] at hj'
      subst hj'
      exact ⟨le_refl _, fun h100 => Or.inl h100⟩
    | some g =>
      simp only [fstep, hpc, hj, Option.some.injEq] at hj'
      subst hj'
      refine ⟨?_, ?_⟩
      · show j.percent ≤ 45
        omega
      · intro h100
        have h45 : (45 : Nat) = 100 := h100
        omega
  case fFeatDone w p =>
    cases hpc : s.fpc <;>
      [(simp only [fstep, hpc, hj, Option.some.injEq] at hj';
        subst hj'; exact ⟨le_refl _, fun h100 => Or.inl h100⟩);
       (simp only [fstep, hpc, hj, Option.some.injEq] at hj';
        subst hj'; exact ⟨le_refl _, fun h100 => Or.inl h100⟩);
       skip;
       (simp only [fstep, hpc, hj, Option.some.injEq] at hj';
        subst hj'; exact ⟨le_refl _, fun h100 => Or.inl h100⟩);
       (simp only [fstep, hpc, hj, Option.some.injEq] at hj';
        subst hj'; exact ⟨le_refl _, fun h100 => Or.inl h100⟩)]
    have hb : j.percent = 45 := by
      have := hinv
      unfold fPercentInv at this
      rw [hpc] at this
      exact this j hj
    simp only [fstep, hpc, hj, Option.some.injEq] at hj'
    subst hj'
    refine ⟨?_, ?_⟩
    · show j.percent ≤ 75
      omega
    · intro h100
      have h75 : (75 : Nat) = 100 := h100
      omega
  case fRenderDone ok =>
    cases hpc : s.fpc <;>
      [(simp only [fstep, hpc, hj, Option.some.injEq] at hj';
        subst hj'; exact ⟨le_refl _, fun h100 => Or.inl h100⟩);
       (simp only [fstep, hpc, hj, Option.some.injEq] at hj';
        subst hj'; exact ⟨le_refl _, fun h100 => Or.inl h100⟩);
       (simp only [fstep, hpc, hj, Option.some.injEq] at hj';
        subst hj'; exact ⟨le_refl _, fun h100 => Or.inl h100⟩);
       skip;
       (simp only [fstep, hpc, hj, Option.some.injEq] at hj';
        subst hj'; exact ⟨le_refl _, fun h100 => Or.inl h100⟩)]
    have hb : j.percent = 75 := by
      have := hinv
      unfold fPercentInv at this
      rw [hpc] at this
      exact this j hj
    cases ok with
    | true =>
      simp only [fstep, hpc, hj, if_true, Option.some.injEq] at hj'
      subst hj'
      refine ⟨?_, fun _ => Or.inr rfl⟩
      show j.percent ≤ 100
      omega
    | false =>
      simp only [fstep, hpc, hj, if_true, Bool.false_eq_true, if_false,
        Option.some.injEq] at hj'
      subst hj'
      exact ⟨le_refl _, fun h100 => Or.inl h100⟩

/-- Claim C6: in both pipelines, along every reachable state, any single
further step keeps the job's percent non-decreasing; and a step raising
percent to 100 from below only ever does so together with status
`complete`, never on an error or cancellation step. (Proved without the
"until terminal" restriction: percent never decreases at all.) -/
theorem percent_monotone_and_100_only_on_complete :
    (∀ (req : Req) (l : List PInput) (i : PInput) (j j' : Job),
      (prun req l).job = some j →
      (pstep req i (prun req l)).job = some j' →
      j.percent ≤ j'.percent ∧
        (j'.percent = 100 → j.percent = 100 ∨ j'.status = JStatus.complete)) ∧
    ∀ (req : Req) (l : List FInput) (i : FInput) (j j' : Job),
      (frun req l).job = some j →
      (fstep req i (frun req l)).job = some j' →
      j.percent ≤ j'.percent ∧
        (j'.percent = 100 → j.percent = 100 ∨ j'.status = JStatus.complete) := by
  constructor
  · intro req l i j j' hj hj'
    exact pstep_percent_mono req i (prun req l) (percentInv_prun req l) j j' hj hj'
  · intro req l i j j' hj hj'
    exact fstep_percent_mono req i (frun req l) (fPercentInv_frun req l) j j' hj hj'

/-- Witness for C6: a concrete step of each machine — the fetch-done
update of the preview flow (15 to 45) and the completion step of the
final flow (75 to 100 with status complete). -/
theorem percent_monotone_and_100_only_on_complete_witness :
    ((prun req0 [PInput.execStart (some c0)]).job.map Job.percent = some 15) ∧
    ((pstep req0 (PInput.execFetch true (some g0))
        (prun req0 [PInput.execStart (some c0)])).job.map Job.percent
      = some 45) ∧
    (∀ j j', (prun req0 [PInput.execStart (some c0)]).job = some j →
      (pstep req0 (PInput.execFetch true (some g0))
        (prun req0 [PInput.execStart (some c0)])).job = some j' →
      j.percent ≤ j'.percent) ∧
    ∀ j j', (frun req0 [FInput.fStart (some c0), FInput.fFetchDone (some g0),
        FInput.fFeatDone none none]).job = some j →
      (fstep req0 (FInput.fRenderDone true)
        (frun req0 [FInput.fStart (some c0), FInput.fFetchDone (some g0),
          FInput.fFeatDone none none])).job = some j' →
      j.percent ≤ j'.percent ∧
        (j'.percent = 100 → j.percent = 100 ∨ j'.status = JStatus.complete) := by
  refine ⟨rfl, rfl, ?_, ?_⟩
  · intro j j' hj hj'
    exact (percent_monotone_and_100_only_on_complete.1 req0
      [PInput.execStart (some c0)] (PInput.execFetch true (some g0))
      j j' hj hj').1
  · intro j j' hj hj'
    exact percent_monotone_and_100_only_on_complete.2 req0
      [FInput.fStart (some c0), FInput.fFetchDone (some g0),
       FInput.fFeatDone none none] (FInput.fRenderDone true) j j' hj hj'

theorem pstep_preserves_evicted (req : Req) (i : PInput) (s : PState)
    (hj : s.job = none) : (pstep req i s).job = none := by
  cases i
  case tick d => by_cases hd : (0 : Rat) ≤ d <;> simp [pstep, hd, hj]
  case cancel => simp [pstep, hj]
  case sweep => simp [pstep, hj]
  case callSwitchRadius r => simp [pstep, hj]
  case callSwitchTheme t tok rok => simp [pstep, hj]
  case callToggle d rok => simp [pstep, hj]
  case execStart loc =>
    cases hepc : s.epc <;> cases loc <;> simp [pstep, hepc, hj]
  case execFetch dn res =>
    cases hepc : s.epc <;> cases dn <;> cases res <;>
      cases hcanc : s.cancelled <;> simp [pstep, hepc, hj, hcanc]
  case execWP dn w p =>
    cases hepc : s.epc <;> cases dn <;> cases hcanc : s.cancelled <;>
      simp [pstep, hepc, hj, hcanc]
  case execRender dn ok =>
    cases hepc : s.epc <;> cases dn <;> cases ok <;>
      cases hcanc : s.cancelled <;> simp [pstep, hepc, hj, hcanc]
  case widenStart =>
    cases hwpc : s.wpc <;> cases hcanc : s.cancelled <;>
      simp [pstep, hwpc, hj, hcanc]
  case widenFetch res =>
    cases hwpc : s.wpc <;> cases res <;> simp [pstep, hwpc, hj]
  case widenWater w =>
    cases hwpc : s.wpc <;> simp [pstep, hwpc, hj]
  case widenParks p =>
    cases hwpc : s.wpc <;> simp [pstep, hwpc, hj]
  case widenRender ok =>
    cases hwpc : s.wpc <;> cases ok <;> simp [pstep, hwpc, hj]

theorem vstep_preserves_evicted (i : VInput) (s : VState)
    (hj : s.job = none) : (vstep i s).job = none := by
  cases i
  case evict => simp [vstep]
  case r1Done ok =>
    cases hv : s.vpc <;> cases ok <;> simp [vstep, hv, hj]
  case fetchAllDone res =>
    cases hv : s.vpc <;> cases res <;> simp [vstep, hv, hj]
  case r2Done ok =>
    cases hv : s.vpc <;> cases ok <;> simp [vstep, hv, hj]
  case r3Done ok =>
    cases hv : s.vpc <;> cases ok <;> simp [vstep, hv, hj]

/-- Claim C7 counterexample: run the preview pipeline to completion, let
the widen task claim the 5 km slot and start its fetch, advance the clock
past the TTL and run the sweeper (evicting the job), then let the fetch
fail. The widen task's failure branch performs `jobs[job_id][...]` with
no membership check: in the model, the task ends through its top-level
`except` handler (`wFinished true`), not through the guarded early
return — refuting the claim that every mutation is preceded by a
membership check. The evicted job itself is gone, so nothing is mutated
and the process survives. -/
theorem widen_task_keyerror_after_eviction :
    ((prun req0 (happyInputs ++ [PInput.widenStart, PInput.tick 2000,
        PInput.sweep, PInput.widenFetch none])).job = none) ∧
    (prun req0 (happyInputs ++ [PInput.widenStart, PInput.tick 2000,
        PInput.sweep, PInput.widenFetch none])).wpc = WPc.wFinished true := by
  have heq : prun req0 (happyInputs ++ [PInput.widenStart, PInput.tick 2000,
      PInput.sweep, PInput.widenFetch none]) =
      pstep req0 (PInput.widenFetch none)
        (pstep req0 PInput.sweep
          (pstep req0 (PInput.tick 2000) widenState)) := rfl
  have htick : pstep req0 (PInput.tick 2000) widenState =
      { widenState with now := widenState.now + 2000 } := rfl
  have hexp : expired jobW (widenState.now + 2000) = true := by
    have hc : jobW.created_at = some 0 := rfl
    have hn : widenState.now = (0 : Rat) := rfl
    rw [hn]
    simp only [expired, hc, Option.getD_some, JOB_EXPIRY_SECONDS,
      decide_eq_true_eq]
    norm_num
  have hsweep : pstep req0 PInput.sweep
      { widenState with now := widenState.now + 2000 } =
      { widenState with
          now := (widenState.now + 2000)
          job := none
          cancelled := false } := by
    have hjob : widenState.job = some jobW := rfl
    simp only [pstep]
    rw [hjob]
    dsimp only
    rw [if_pos hexp]
  rw [heq, htick, hsweep]
  exact ⟨rfl, rfl⟩

/-- Claim C7 amended: an evicted job is indeed never mutated and no
background task crashes the process, but the mechanism differs between
the two tasks: `render_variants_background` checks `job_id in jobs`
immediately before each of its mutations and skips them gracefully, while
`fetch_other_radiuses_background` checks only at the top of each radius
iteration — its post-await mutation sites rely on the `KeyError` raised
by the unguarded registry lookup, which its top-level handler catches
(ending the task in its exceptional state instead of continuing). -/
theorem evicted_job_never_mutated (req : Req) :
    (∀ (i : PInput) (s : PState), s.job = none → (pstep req i s).job = none) ∧
    (∀ (i : VInput) (s : VState), s.job = none → (vstep i s).job = none) ∧
    (∀ (s : PState) (c : Rat × Rat) (bn : String),
      s.wpc = WPc.wFetch c bn → s.job = none →
      pstep req (PInput.widenFetch none) s =
        { s with wpc := WPc.wFinished true }) ∧
    ∀ (s : VState) (bn : String), s.vpc = VPc.vRender1 bn → s.job = none →
      vstep (VInput.r1Done true) s = { s with vpc := VPc.vFetchAll bn } := by
  refine ⟨fun i s h => pstep_preserves_evicted req i s h,
    fun i s h => vstep_preserves_evicted i s h, ?_, ?_⟩
  · intro s c bn hwpc hj
    simp [pstep, hwpc, hj]
  · intro s bn hv hj
    simp [vstep, hv, hj]

/-- Witness for C7 amended: a concrete evicted state for both tasks. -/
theorem evicted_job_never_mutated_witness :
    ((pstep req0 PInput.cancel
        { job := none, cancelled := false, now := 0, epc := EPc.finished,
          wpc := WPc.wFetch c0 "bn", fetchCount5 := 1,
          fetchCount10 := 1 }).job = none) ∧
    (pstep req0 (PInput.widenFetch none)
        { job := none, cancelled := false, now := 0, epc := EPc.finished,
          wpc := WPc.wFetch c0 "bn", fetchCount5 := 1, fetchCount10 := 1 } =
      { job := none, cancelled := false, now := 0, epc := EPc.finished,
        wpc := WPc.wFinished true, fetchCount5 := 1, fetchCount10 := 1 }) ∧
    (vstep (VInput.r1Done true) { job := none, vpc := VPc.vRender1 "bn" } =
      { job := none, vpc := VPc.vFetchAll "bn" }) := by
  refine ⟨?_, ?_, ?_⟩
  · exact (evicted_job_never_mutated req0).1 PInput.cancel _ rfl
  · exact (evicted_job_never_mutated req0).2.2.1 _ c0 "bn" rfl rfl
  · exact (evicted_job_never_mutated req0).2.2.2 _ "bn" rfl rfl

end MapToPoster
